import Mathlib

/-!
Shallow embedding of the airlock-wallet/airlock backend aggregation gateway
(Python) in Lean 4, together with theorems settling the frozen claims about
its specification.

Conventions of the embedding:
* Python integers are modelled as Nat or Int; Python floats that carry
  exact decimal upstream data are modelled as Rat (the claims under check
  only use their exact arithmetic in ranges where binary floats are not
  material, which is noted at each definition).
* decimal.Decimal values are modelled as Rat.  The default Decimal context
  carries 28 significant digits; arithmetic in the embedding is exact, so
  theorems that depend on Decimal exactness carry an explicit size bound
  keeping the value inside the exact range of the 28-digit context.
* Fallible code is modelled with Option or Except; a raised Python
  exception that escapes the function is an Except.error value.
* HTTP requests are not part of the functions under check: each embedded
  operation takes the (already JSON-decoded) upstream response as an
  argument, with absent keys modelled by Option fields.
-/

namespace Airlock

/-! ## Decimal rendering

Model of the rendering path of services/core/utils.py
(to_standard_amount): a Python Decimal value formatted via
format(value, f'.{p}f'), which rounds half-even at p fractional digits
and never uses exponent form.  The sign of a negative value is kept even
when the rounded digits are all zero, as decimal.Decimal does. -/

/-- Round half to even (the rounding of the default Decimal context),
from an exact rational to an integer. -/
def rhe (q : ℚ) : ℤ :=
  let f : ℤ := q.floor
  let r : ℚ := q - f
  if r < 1 / 2 then f
  else if 1 / 2 < r then f + 1
  else if f % 2 = 0 then f else f + 1

/-- Little-endian base-10 digits of a natural number, with explicit fuel
so that the definition is structural and kernel-reducible. -/
def natDigitsAux : ℕ → ℕ → List ℕ
  | 0, _ => []
  | _ + 1, 0 => []
  | fuel + 1, n + 1 => (n + 1) % 10 :: natDigitsAux fuel ((n + 1) / 10)

/-- Little-endian base-10 digits (empty for zero). -/
def natDigits (n : ℕ) : List ℕ := natDigitsAux n n

/-- Exactly p little-endian base-10 digits of m (modulo 10 ^ p). -/
def leDigitsPadded : ℕ → ℕ → List ℕ
  | _, 0 => []
  | m, p + 1 => m % 10 :: leDigitsPadded (m / 10) p

/-- Digit to its ASCII character. -/
def digitChar10 (d : ℕ) : Char := Char.ofNat (48 + d)

/-- Decimal string of a natural number, exactly as Python prints an int. -/
def natStr (n : ℕ) : String :=
  if n = 0 then "0" else String.mk ((natDigits n).reverse.map digitChar10)

/-- Fractional part of width p (zero-padded on the left). -/
def fracStr (m p : ℕ) : String :=
  String.mk ((leDigitsPadded m p).reverse.map digitChar10)

/-- Model of format(q, '.pf') on a Decimal whose exact value is q:
round half-even at p fractional digits; keep the sign of a negative
input even when the result rounds to zero; no decimal point when p = 0. -/
def fmtQ (q : ℚ) (p : ℕ) : String :=
  let n : ℕ := (rhe (q * 10 ^ p)).natAbs
  let sign : String := if q < 0 then "-" else ""
  if p = 0 then sign ++ natStr n
  else sign ++ natStr (n / 10 ^ p) ++ "." ++ fracStr (n % 10 ^ p) p

/-! ## Registry and token whitelist -/

/-- Fields of one registry coin descriptor that the embedded code reads.
The registry file is loaded externally; lookups are modelled by a
function argument of type String to Option CoinInfo. -/
structure CoinInfo where
  symbol : Option String
  decimals : Option ℕ
deriving Repr, DecidableEq

/-- Token whitelist entry (services/core/config.py, ALLOW_TOKENS). -/
structure TokenMeta where
  coin : String
  symbol : String
  name : String
  contract : String
  decimals : ℕ
deriving Repr, DecidableEq

/-- Embedded token whitelist from services/core/config.py (the icon field
is never read by the code under check and is omitted). -/
def ALLOW_TOKENS : List TokenMeta :=
  [ ⟨"ethereum", "USDT", "USDT-ERC20",
      "0xdAC17F958D2ee523a2206206994597C13D831ec7", 6⟩,
    ⟨"arbitrum", "ARB", "Arbitrum",
      "0x912CE59144191C1204E64559FE8253a0e49E6548", 18⟩,
    ⟨"smartchain", "USDC", "USDC-BEP20",
      "0x8ac76a51cc950d9822d68b83fe1ad97b32cd580d", 18⟩,
    ⟨"smartchain", "TWT", "TWT-BEP20",
      "0x4B0F1812e5Df2A09796481Ff14017e6005508003", 18⟩,
    ⟨"tron", "USDT", "USDT-TRC20",
      "TR7NHqjeKQxGTCi8q8ZY4pL8otSzgjLj6t", 6⟩ ]

/-- Python truthiness of an optional string argument: None and the empty
string are falsy. -/
def pyTruthy : Option String → Bool
  | none => false
  | some s => s ≠ ""

/-- Raw amount values accepted by to_standard_amount: Python None, an
int, a numeric string, or a float (modelled by its exact decimal value,
as produced by Decimal(str(raw_value)) on the values the claims use). -/
inductive RawValue where
  | null : RawValue
  | int (z : ℤ) : RawValue
  | strv (s : String) : RawValue
  | num (q : ℚ) : RawValue
deriving Repr, DecidableEq

/-- Strict parse of a decimal numeral string into an exact rational:
optional minus sign, integer digits, optional point and fractional
digits.  Models the Decimal constructor on the numeral shapes that the
code under check feeds it (parse failure models a Decimal conversion
exception). -/
def decDigitVal (c : Char) : Option ℕ :=
  if 48 ≤ c.toNat ∧ c.toNat ≤ 57 then some (c.toNat - 48) else none

/-- Fold a list of digit characters into a natural number; none when a
character is not a digit or the list is empty. -/
def parseDigitsAcc : ℕ → List Char → Option ℕ
  | acc, [] => some acc
  | acc, c :: cs =>
    match decDigitVal c with
    | some d => parseDigitsAcc (acc * 10 + d) cs
    | none => none

def parseNatDigits (cs : List Char) : Option ℕ :=
  match cs with
  | [] => none
  | _ => parseDigitsAcc 0 cs

/-- Parse of a decimal numeral (see decDigitVal). -/
def decimalParse (s : String) : Option ℚ :=
  let cs := s.data
  let (neg, cs₁) :=
    match cs with
    | c :: t => if c = '-' then (true, t) else (false, c :: t)
    | [] => (false, [])
  let ip := cs₁.takeWhile (fun c => c ≠ '.')
  let rest := cs₁.dropWhile (fun c => c ≠ '.')
  match rest with
  | [] =>
    (parseNatDigits ip).map (fun n => if neg then -(n : ℚ) else (n : ℚ))
  | _ :: fp =>
    match parseNatDigits ip, parseNatDigits fp with
    | some i, some f =>
      let v : ℚ := (i : ℚ) + (f : ℚ) / 10 ^ fp.length
      some (if neg then -v else v)
    | _, _ => none

/-- Decimals resolution of to_standard_amount (services/core/utils.py):
a truthy contract is looked up, case-insensitively, in ALLOW_TOKENS
only; otherwise the decimals come from the registry entry of the chain.
-/
def resolveDecimals (registry : String → Option CoinInfo)
    (chain_key : String) (contract : Option String) : Option ℕ :=
  if pyTruthy contract then
    match contract with
    | some c =>
      ((ALLOW_TOKENS.find? (fun t => t.contract.toLower = c.toLower)).map
        (fun t => t.decimals))
    | none => none
  else (registry chain_key).bind (fun coin => coin.decimals)

/-- Embedding of to_standard_amount (services/core/utils.py, lines
115-164).  raw models raw_value; force_raw true divides by
10 ^ decimals; rendering uses min decimals 8 fractional digits.  The
error mark "-0.000000" is returned when decimals do not resolve, or
when a string raw value fails to parse as a Decimal. -/
def to_standard_amount (registry : String → Option CoinInfo)
    (raw : RawValue) (chain_key : String) (contract : Option String)
    (force_raw : Bool) : String :=
  match resolveDecimals registry chain_key contract with
  | none => "-0.000000"
  | some decimals =>
    let render : ℚ → String := fun d_value =>
      let human_value := if force_raw then d_value / 10 ^ decimals else d_value
      fmtQ human_value (min decimals 8)
    match raw with
    | .null => "0.000000"
    | .int z => render (z : ℚ)
    | .num q => render q
    | .strv s =>
      if s.trim = "" then "0.000000"
      else
        match decimalParse s.trim with
        | none => "-0.000000"
        | some q => render q

/-! ## Canonical transfer records -/

/-- Canonical transfer dictionary produced by the XRP normalizer
(keys txid, from, to, value, timestamp, symbol; from and to are spelled
tfrom and tto because from is a Lean keyword). -/
structure Transfer where
  txid : String
  tfrom : String
  tto : String
  value : String
  timestamp : ℕ
  symbol : String
deriving Repr, DecidableEq

/-! ## TON account (services/extend/toncenter.py, get_ton_account)

The two upstream calls (getAddressInformation, runGetMethod) are
modelled by their decoded results.  The _request wrapper returns None on
any transport or logical failure, and a falsy body is treated the same
by the call sites, so a failed or falsy response is the value none.  For
the seqno call, a result dict without a stack key behaves exactly like a
failed request (both raise), so it is also collapsed into none. -/

structure TonInfo where
  state : Option String
  balance : Option String
deriving Repr, DecidableEq

structure TonAccount where
  seqno : ℤ
  is_deployed : Bool
  balance : String
  estimated_fee : String
deriving Repr, DecidableEq

/-- Hexadecimal digit value of a character. -/
def hexDigitVal (c : Char) : Option ℕ :=
  if 48 ≤ c.toNat ∧ c.toNat ≤ 57 then some (c.toNat - 48)
  else if 97 ≤ c.toNat ∧ c.toNat ≤ 102 then some (c.toNat - 87)
  else if 65 ≤ c.toNat ∧ c.toNat ≤ 70 then some (c.toNat - 55)
  else none

/-- Digit-list parse in a given base via a digit reader. -/
def parseBaseAcc (dig : Char → Option ℕ) (base acc : ℕ) :
    List Char → Option ℕ
  | [] => some acc
  | c :: cs =>
    match dig c with
    | some d => parseBaseAcc dig base (acc * base + d) cs
    | none => none

def parseBaseDigits (dig : Char → Option ℕ) (base : ℕ)
    (cs : List Char) : Option ℕ :=
  match cs with
  | [] => none
  | _ => parseBaseAcc dig base 0 cs

/-- Model of Python int(s) on plain decimal literals with an optional
minus sign (the only shapes the TON node returns; other int() inputs
such as underscores or surrounding whitespace are out of scope). -/
def pyIntDec (s : String) : Option ℤ :=
  match s.data with
  | '-' :: t => (parseBaseDigits decDigitVal 10 t).map (fun n => -(n : ℤ))
  | cs => (parseBaseDigits decDigitVal 10 cs).map (fun n => (n : ℤ))

/-- Seqno literal parse of get_ton_account: int(v, 16) when the string
starts with 0x, else int(v). -/
def tonSeqnoParse (s : String) : Option ℤ :=
  if s.startsWith "0x" then
    (parseBaseDigits hexDigitVal 16 (s.drop 2).data).map (fun n => (n : ℤ))
  else pyIntDec s

/-- Embedding of get_ton_account (services/extend/toncenter.py, lines
68-135).  info is the getAddressInformation result, seq the runGetMethod
stack (a list of tagged value pairs).  Except.error models a raised
ValueError escaping the function. -/
def get_ton_account (info : Option TonInfo)
    (seq : Option (List (String × String))) : Except String TonAccount :=
  let default_res : TonAccount := ⟨0, false, "0", "0.01"⟩
  match info with
  | none => .ok default_res
  | some i =>
    let state := i.state.getD "uninitialized"
    let balance := i.balance.getD "0"
    if state = "active" then
      match seq with
      | none => .error "Failed to fetch sequence number for active wallet"
      | some stack =>
        match stack with
        | (tag, val_str) :: _ =>
          if tag = "num" then
            match tonSeqnoParse val_str with
            | some n => .ok ⟨n, true, balance, "0.01"⟩
            | none => .error "invalid literal for int()"
          else .error "Invalid seqno response from node"
        | [] => .error "Invalid seqno response from node"
    else .ok ⟨0, false, balance, "0.01"⟩

/-! ## XRP broadcast (services/core/ankr_provider.py,
_broadcast_xrp_transaction, lines 492-522) -/

/-- Decoded submit response body: res result.engine_result and
res result.tx_json.hash (each possibly absent). -/
structure XrpSubmitResult where
  engine_result : Option String
  tx_hash : Option String
deriving Repr, DecidableEq

/-- Embedding of _broadcast_xrp_transaction.  The whole response being
absent (no res, or no result key) models a failed request; the return
value none models Python None (a tes result whose tx_json carries no
hash).  When engine_result is absent, the startswith call raises
AttributeError, which the except block swallows before the final
return of the empty string. -/
def broadcast_xrp_transaction (res : Option XrpSubmitResult) :
    Option String :=
  match res with
  | none => some ""
  | some r =>
    match r.engine_result with
    | none => some ""
    | some engine_result =>
      if engine_result = "tesSUCCESS" ∨ engine_result.startsWith "tes" then
        r.tx_hash
      else some ""

/-! ## XRP history (services/core/ankr_provider.py,
_get_xrp_transactions, lines 391-490) -/

/-- Amount field of a Ripple Payment: a string of drops, a JSON object
(issued token), or any other JSON type (neither isinstance branch
fires and the preset value string of zero is kept). -/
inductive XrpAmount where
  | str (s : String) : XrpAmount
  | obj : XrpAmount
  | other : XrpAmount
deriving Repr, DecidableEq

/-- Fields of one account_tx record read by the code.  Fee is read and
converted by float() but never used; it is modelled as an exact
rational and assumed numeric (a non-numeric Fee would raise outside
any try block, which no claim involves). -/
structure XrpTx where
  date : Option ℕ
  hash : Option String
  Account : Option String
  Destination : Option String
  TransactionType : Option String
  Amount : Option XrpAmount
  Fee : Option ℚ
deriving Repr, DecidableEq

structure XrpMeta where
  TransactionResult : Option String
deriving Repr, DecidableEq

structure XrpTxItem where
  tx : XrpTx
  meta : XrpMeta
deriving Repr, DecidableEq

structure XrpAccountTxResult where
  status : Option String
  transactions : Option (List XrpTxItem)
deriving Repr, DecidableEq

/-- Offset between the Ripple epoch and the Unix epoch in seconds. -/
def RIPPLE_EPOCH_OFFSET : ℕ := 946684800

/-- Transfer built from one passing account_tx record (the address
argument only feeds the dead direction computation and is unused). -/
def mkXrpTransfer (registry : String → Option CoinInfo)
    (chain_key : String) (contract : Option String) (item : XrpTxItem)
    (final_amount : String) : Transfer :=
  { txid := item.tx.hash.getD ""
    tfrom := item.tx.Account.getD ""
    tto := item.tx.Destination.getD ""
    value := final_amount
    timestamp := (item.tx.date.getD 0 + RIPPLE_EPOCH_OFFSET) * 1000
    symbol := "XRP" }

/-- Record loop of _get_xrp_transactions (continue statements become
recursive calls that drop the record). -/
def xrpTxLoop (registry : String → Option CoinInfo) (chain_key : String)
    (contract : Option String) : List XrpTxItem → List Transfer
  | [] => []
  | item :: rest =>
    if item.meta.TransactionResult ≠ some "tesSUCCESS" then
      xrpTxLoop registry chain_key contract rest
    else if item.tx.TransactionType ≠ some "Payment" then
      xrpTxLoop registry chain_key contract rest
    else
      match item.tx.Amount.getD (.str "0") with
      | .obj => xrpTxLoop registry chain_key contract rest
      | .str s =>
        mkXrpTransfer registry chain_key contract item
            (to_standard_amount registry (.strv s) chain_key contract true) ::
          xrpTxLoop registry chain_key contract rest
      | .other =>
        mkXrpTransfer registry chain_key contract item "0" ::
          xrpTxLoop registry chain_key contract rest

/-- Per-record view of the xrpTxLoop body: the transfer emitted for one
account_tx record, or none when the loop continues past it. -/
def xrpEmit (registry : String → Option CoinInfo) (chain_key : String)
    (contract : Option String) (item : XrpTxItem) : Option Transfer :=
  if item.meta.TransactionResult ≠ some "tesSUCCESS" then none
  else if item.tx.TransactionType ≠ some "Payment" then none
  else
    match item.tx.Amount.getD (.str "0") with
    | .obj => none
    | .str s =>
      some (mkXrpTransfer registry chain_key contract item
        (to_standard_amount registry (.strv s) chain_key contract true))
    | .other =>
      some (mkXrpTransfer registry chain_key contract item "0")

/-- Embedding of _get_xrp_transactions from the decoded account_tx
response down (res none models a failed request or a body without a
result key). -/
def get_xrp_transactions (registry : String → Option CoinInfo)
    (chain_key : String) (address : String) (contract : Option String)
    (res : Option XrpAccountTxResult) : List Transfer :=
  match res with
  | none => []
  | some result =>
    if result.status ≠ some "success" then []
    else xrpTxLoop registry chain_key contract (result.transactions.getD [])

/-! ## Etherscan history (services/extend/etherscan.py,
get_transactions, lines 162-218) -/

/-- Fields of one Etherscan txlist or tokentx record read by the loop
body.  timeStamp is kept as the raw string; a missing key yields the
int default 0 directly. -/
structure EthTxIn where
  hash : Option String
  tfrom : Option String
  tto : Option String
  value : Option String
  timeStamp : Option String
  isError : Option String
  txreceipt_status : Option String
  tokenSymbol : Option String
  gasUsed : Option String
  gasPrice : Option String
deriving Repr, DecidableEq

/-- Output record of the Etherscan history normalizer (adds status and
gas fields to the canonical transfer shape; timestamp is an Int since
int() accepts signed strings). -/
structure EthTxRecord where
  txid : Option String
  tfrom : Option String
  tto : Option String
  value : String
  timestamp : ℤ
  symbol : String
  status : ℕ
  gasUsed : Option String
  gasPrice : Option String
deriving Repr, DecidableEq

/-- Loop body of etherscan get_transactions: none models the except
branch that drops the record (the only fallible step is int() on
timeStamp; to_standard_amount catches its own conversion errors). -/
def ethTxEmit (registry : String → Option CoinInfo) (chain_key : String)
    (contract : Option String) (symbol_default : String) (tx : EthTxIn) :
    Option EthTxRecord :=
  let ts? : Option ℤ :=
    match tx.timeStamp with
    | none => some 0
    | some s => pyIntDec s
  match ts? with
  | none => none
  | some n =>
    let status : ℕ :=
      if tx.isError = some "1" ∨ tx.txreceipt_status = some "0" then 0 else 1
    some
      { txid := tx.hash
        tfrom := tx.tfrom
        tto := tx.tto
        value := to_standard_amount registry (.strv (tx.value.getD "0"))
          chain_key contract true
        timestamp := n * 1000
        symbol := tx.tokenSymbol.getD symbol_default
        status := status
        gasUsed := tx.gasUsed
        gasPrice := tx.gasPrice }

/-- Embedding of etherscan get_transactions from the decoded response
list down (res none models a non-list response). -/
def etherscan_get_transactions (registry : String → Option CoinInfo)
    (chain_key : String) (address : String) (contract : Option String)
    (res : Option (List EthTxIn)) : List EthTxRecord :=
  match res with
  | none => []
  | some tx_list =>
    let base :=
      match registry chain_key with
      | some coin_info => coin_info.symbol.getD "ETH"
      | none => "ETH"
    let symbol_default := if pyTruthy contract then "ERC20" else base
    tx_list.filterMap (ethTxEmit registry chain_key contract symbol_default)

/-! ## BTC-family history (services/core/tatum_provider.py,
_get_btc_transactions, lines 950-991) -/

/-- Python substring membership (needle in haystack) on char lists. -/
def listContainsSub (hay needle : List Char) : Bool :=
  if needle.isPrefixOf hay then true
  else
    match hay with
    | [] => false
    | _ :: t => listContainsSub t needle

/-- Python needle in haystack on strings. -/
def pyInStr (needle hay : String) : Bool :=
  listContainsSub hay.data needle.data

structure BtcOutItem where
  address : Option String
  value : Option ℚ
deriving Repr, DecidableEq

structure BtcCoin where
  address : Option String
  value : Option ℚ
deriving Repr, DecidableEq

structure BtcInItem where
  coin : Option BtcCoin
deriving Repr, DecidableEq

structure BtcTxUpstream where
  hash : Option String
  outputs : Option (List BtcOutItem)
  inputs : Option (List BtcInItem)
  time : Option ℕ
deriving Repr, DecidableEq

/-- Value slot of a BTC-family transfer: the dogecoin and litecoin
branch stores the raw float, every other chain stores the canonical
string. -/
inductive BtcValueField where
  | rendered (s : String) : BtcValueField
  | rawNum (q : ℚ) : BtcValueField
deriving Repr, DecidableEq

structure BtcTxRecord where
  txid : Option String
  tfrom : String
  tto : String
  value : BtcValueField
  timestamp : ℕ
  symbol : String
deriving Repr, DecidableEq

/-- Embedding of the _get_btc_transactions loop body.  nowMs models
int(time.time() times 1000), used when the record carries no truthy
time.  Upstream float values are modelled as exact rationals. -/
def btcTxEmit (registry : String → Option CoinInfo)
    (t_chain_path chain_key address : String) (contract : Option String)
    (nowMs : ℕ) (tx : BtcTxUpstream) : BtcTxRecord :=
  let my_out_val : ℚ :=
    ((tx.outputs.getD []).map (fun out =>
      if pyInStr address (out.address.getD "") then out.value.getD 0 else 0)).sum
  let my_in_val : ℚ :=
    ((tx.inputs.getD []).map (fun inp =>
      let coin := inp.coin.getD ⟨none, none⟩
      if pyInStr address (coin.address.getD "") then coin.value.getD 0
      else 0)).sum
  let net_value := my_out_val - my_in_val
  let f_addr := if 0 ≤ net_value then "" else address
  let t_addr := if 0 ≤ net_value then address else ""
  let amount : BtcValueField :=
    if t_chain_path = "dogecoin" ∨ t_chain_path = "litecoin" then
      .rawNum |net_value|
    else
      .rendered (to_standard_amount registry (.num |net_value|) chain_key
        contract true)
  { txid := tx.hash
    tfrom := f_addr
    tto := t_addr
    value := amount
    timestamp :=
      match tx.time with
      | some t => if t ≠ 0 then t * 1000 else nowMs
      | none => nowMs
    symbol := chain_key.toUpper }

/-- Embedding of _get_btc_transactions from the decoded response list
down. -/
def get_btc_transactions (registry : String → Option CoinInfo)
    (t_chain_path chain_key address : String) (contract : Option String)
    (nowMs : ℕ) (res : Option (List BtcTxUpstream)) : List BtcTxRecord :=
  match res with
  | none => []
  | some raw_txs =>
    raw_txs.map (btcTxEmit registry t_chain_path chain_key address contract
      nowMs)

/-! ## BTC-family balance (services/core/tatum_provider.py,
_get_btc_balance, lines 718-757) -/

structure BtcBalanceRes where
  incoming : Option ℚ
  outgoing : Option ℚ
  incomingPending : Option ℚ
  outgoingPending : Option ℚ
deriving Repr, DecidableEq

/-- Balance arithmetic of _get_btc_balance on the four upstream fields
(floats modelled as exact rationals). -/
def btcFinalBalance (incoming outgoing incoming_pending
    outgoing_pending : ℚ) : ℚ :=
  let confirmed_balance := incoming - outgoing
  let current_balance := confirmed_balance + incoming_pending
  let final_balance :=
    if outgoing_pending > 0 then current_balance
    else current_balance - outgoing_pending
  if final_balance < 0 then 0 else final_balance

/-- Embedding of _get_btc_balance from the decoded response down (the
address cleaning for bcash only shapes the request URL). -/
def get_btc_balance (registry : String → Option CoinInfo)
    (t_chain_path chain_key : String) (contract : Option String)
    (res : Option BtcBalanceRes) : String :=
  match res with
  | none => "-0.000000"
  | some r =>
    to_standard_amount registry
      (.num (btcFinalBalance (r.incoming.getD 0) (r.outgoing.getD 0)
        (r.incomingPending.getD 0) (r.outgoingPending.getD 0)))
      chain_key contract false

/-! ## EVM gas estimates (services/extend/bsc_rpc.py, avax_rpc.py,
etc.py — get_estimate_gas) -/

structure GasEstimate where
  gasPrice : String
  gasLimit : String
deriving Repr, DecidableEq

/-- Embedding of bsc_rpc.get_estimate_gas (lines 127-151).  hex_price
is the parsed eth_gasPrice result; none models a falsy response. -/
def bsc_get_estimate_gas (hex_price : Option ℕ)
    (contract : Option String) : GasEstimate :=
  let min_gas_price : ℕ := 3000000000
  let current_price := hex_price.getD min_gas_price
  let final_price := max current_price min_gas_price
  let safe_limit : ℕ := if pyTruthy contract then 100000 else 21000
  ⟨natStr final_price, natStr safe_limit⟩

/-- Embedding of avax_rpc.get_estimate_gas (lines 115-135). -/
def avax_get_estimate_gas (hex_price : Option ℕ)
    (contract : Option String) : GasEstimate :=
  let min_price : ℕ := 25000000000
  let current_price := hex_price.getD min_price
  let final_price := max current_price min_price
  let safe_limit : ℕ := if pyTruthy contract then 100000 else 21000
  ⟨natStr final_price, natStr safe_limit⟩

/-- Embedding of etc.get_estimate_gas (lines 108-137): the 1 Gwei value
is only the default when the RPC response carries no result; a present
result is used as it is, with no floor applied. -/
def etc_get_estimate_gas (rpc_result : Option ℕ)
    (contract : Option String) : GasEstimate :=
  let gas_price : ℕ :=
    match rpc_result with
    | some v => v
    | none => 1000000000
  let safe_limit : ℕ := if pyTruthy contract then 100000 else 21000
  ⟨natStr gas_price, natStr safe_limit⟩

/-! ## BCH CashAddr encoding (services/core/utils.py,
pubkey_to_address_with_bch, lines 26-90)

The hashlib SHA-256 and RIPEMD-160 calls are external library
primitives; the embedding starts from their 20-byte hash160 digest, and
the encoding downstream of the digest is embedded bit-exactly. -/

def CHARSET : String := "qpzry9x8gf2tvdw0s3jn54khce6mua7l"

def bchGenerator : List ℕ :=
  [0x98f2bc8e61, 0x79b76d99e2, 0xf33e5fb3c4, 0xae2eabe2a8, 0x1e4f43e470]

/-- One iteration of the polymod loop. -/
def polymodStep (checksum value : ℕ) : ℕ :=
  let top := checksum >>> 35
  let c := ((checksum &&& 0x07ffffffff) <<< 5) ^^^ value
  (List.range 5).foldl
    (fun acc i =>
      if (top >>> i) &&& 1 = 1 then acc ^^^ bchGenerator.getD i 0 else acc) c

/-- Internal polynomial modulo function for the CashAddr checksum. -/
def polymod (values : List ℕ) : ℕ :=
  (values.foldl polymodStep 1) ^^^ 1

/-- Inner while loop of convertbits: emit tobits-wide groups while at
least tobits bits are pending; returns the emitted groups and the
remaining bit count.  The loop runs at most bits times, so the explicit
fuel (instantiated with bits) keeps the recursion structural and
kernel-reducible without changing the computed value. -/
def emitLoop (tobits maxv acc : ℕ) : ℕ → ℕ → List ℕ × ℕ
  | 0, bits => ([], bits)
  | fuel + 1, bits =>
    if 0 < tobits ∧ tobits ≤ bits then
      let bits' := bits - tobits
      let e := (acc >>> bits') &&& maxv
      let rec_res := emitLoop tobits maxv acc fuel bits'
      (e :: rec_res.1, rec_res.2)
    else ([], bits)

/-- Bit conversion helper of pubkey_to_address_with_bch. -/
def convertbits (data : List ℕ) (frombits tobits : ℕ) (pad : Bool) :
    List ℕ :=
  let maxv := (1 <<< tobits) - 1
  let st := data.foldl
    (fun (st : List ℕ × ℕ × ℕ) value =>
      let acc := (st.2.1 <<< frombits) ||| value
      let bits := st.2.2 + frombits
      let er := emitLoop tobits maxv acc bits bits
      (st.1 ++ er.1, acc, er.2))
    ([], 0, 0)
  if pad then
    (if st.2.2 ≠ 0 then st.1 ++ [(st.2.1 <<< (tobits - st.2.2)) &&& maxv]
     else st.1)
  else st.1

/-- Prefix bitcoincash expanded to 5-bit values, followed by the
separator zero. -/
def bchPrefixData : List ℕ := [2, 9, 20, 3, 15, 9, 14, 3, 1, 19, 8, 0]

/-- Embedding of pubkey_to_address_with_bch downstream of the hash160
digest (SHA-256 then RIPEMD-160 of the public key bytes, supplied as
the 20-byte argument). -/
def pubkey_to_address_with_bch (hash160 : List ℕ) : String :=
  let payload := 0 :: hash160
  let payload_5bit := convertbits payload 8 5 true
  let checksum := polymod (bchPrefixData ++ payload_5bit ++
    List.replicate 8 0)
  let checksum_5bit :=
    ((List.range 8).reverse).map (fun i => (checksum >>> (5 * i)) &&& 31)
  let combined := payload_5bit ++ checksum_5bit
  "bitcoincash:" ++ String.mk (combined.map (fun d => CHARSET.data.getD d 'q'))

/-! ## TON history (services/extend/toncenter.py, get_ton_transactions,
lines 137-209) -/

/-- Python x or d on an optional string (None and the empty string are
falsy and give the default). -/
def pyOrStr (v : Option String) (d : String) : String :=
  if pyTruthy v then v.getD "" else d

/-- Python a or b when both operands are optional strings (the result
may still be None). -/
def pyOrOpt (a b : Option String) : Option String :=
  if pyTruthy a then a else b

/-- Message record of a TonCenter transaction.  value is the nanoTON
amount, an integer string upstream, modelled by its decoded value; a
missing or falsy value reads as 0 through int(x or 0). -/
structure TonMsg where
  source : Option String
  destination : Option String
  value : Option ℤ
deriving Repr, DecidableEq

structure TonTxId where
  hash : Option String
deriving Repr, DecidableEq

/-- Fields of one TonCenter getTransactions record read by the loop
body.  utime is the confirmation time in seconds. -/
structure TonTxUpstream where
  transaction_id : Option TonTxId
  in_msg : Option TonMsg
  out_msgs : Option (List TonMsg)
  utime : Option ℕ
deriving Repr, DecidableEq

/-- Canonical record of the TON history normalizer. -/
structure TonTxRecord where
  txid : Option String
  tfrom : String
  tto : String
  value : String
  timestamp : ℕ
  symbol : String
deriving Repr, DecidableEq

/-- Loop body of get_ton_transactions: direction comes from the
presence of outbound messages, then from a positive inbound value. -/
def tonTxEmit (registry : String → Option CoinInfo)
    (chain_key address : String) (contract : Option String)
    (tx : TonTxUpstream) : TonTxRecord :=
  let in_msg := tx.in_msg.getD ⟨none, none, none⟩
  let out_msgs := tx.out_msgs.getD []
  let in_value : ℤ := in_msg.value.getD 0
  let out_value : ℤ := (out_msgs.map (fun m => m.value.getD 0)).sum
  let ftd : String × String × ℤ :=
    if out_msgs ≠ [] then
      (address,
        pyOrStr (out_msgs.headD ⟨none, none, none⟩).destination "Unknown",
        out_value)
    else if 0 < in_value then
      (pyOrStr in_msg.source "External", address, in_value)
    else
      (pyOrStr in_msg.source "Unknown", address, 0)
  { txid := (tx.transaction_id.getD ⟨none⟩).hash
    tfrom := ftd.1
    tto := ftd.2.1
    value := to_standard_amount registry (.int ftd.2.2) chain_key contract
      true
    timestamp := tx.utime.getD 0 * 1000
    symbol := "TON" }

/-- Embedding of get_ton_transactions from the decoded response list
down (res none models a non-list response). -/
def get_ton_transactions (registry : String → Option CoinInfo)
    (chain_key address : String) (contract : Option String)
    (res : Option (List TonTxUpstream)) : List TonTxRecord :=
  match res with
  | none => []
  | some raw_txs =>
    raw_txs.map (tonTxEmit registry chain_key address contract)

/-! ## Dash history (services/extend/dash.py, get_dash_transactions,
lines 100-192) -/

structure DashScriptPubKey where
  addresses : Option (List String)
deriving Repr, DecidableEq

/-- Output of an Insight transaction; value is a DASH float, modelled
as an exact rational. -/
structure DashVout where
  scriptPubKey : Option DashScriptPubKey
  value : Option ℚ
deriving Repr, DecidableEq

/-- Input of an Insight transaction (value feeds only the dead
input_total accumulator, which the code never reads back). -/
structure DashVin where
  addr : Option String
  value : Option ℚ
deriving Repr, DecidableEq

structure DashTxUpstream where
  txid : Option String
  time : Option ℕ
  vin : Option (List DashVin)
  vout : Option (List DashVout)
deriving Repr, DecidableEq

structure DashTxRecord where
  txid : Option String
  tfrom : String
  tto : String
  value : String
  timestamp : ℕ
  symbol : String
deriving Repr, DecidableEq

/-- Loop body of get_dash_transactions.  int(round(x)) on the DASH
float is modelled by round-half-even on the exact rational. -/
def dashTxEmit (registry : String → Option CoinInfo)
    (chain_key address : String) (contract : Option String)
    (tx : DashTxUpstream) : DashTxRecord :=
  let is_sender := (tx.vin.getD []).any (fun v => v.addr == some address)
  let vouts := tx.vout.getD []
  let output_to_other : ℚ := (vouts.map (fun v =>
    if address ∈ (v.scriptPubKey.getD ⟨none⟩).addresses.getD [] then 0
    else v.value.getD 0)).sum
  let incoming_total : ℚ := (vouts.map (fun v =>
    if address ∈ (v.scriptPubKey.getD ⟨none⟩).addresses.getD [] then
      v.value.getD 0
    else 0)).sum
  let dest_candidates : List String := vouts.filterMap (fun v =>
    let addrs := (v.scriptPubKey.getD ⟨none⟩).addresses.getD []
    if address ∈ addrs then none else addrs.head?)
  let dao : Bool × ℚ × String :=
    if is_sender then
      (true, output_to_other, dest_candidates.headD "Unknown")
    else
      (false, incoming_total,
        match tx.vin with
        | some (v :: _) => v.addr.getD "Unknown"
        | _ => "Unknown")
  let actual_sats : ℤ := rhe (dao.2.1 * 100000000)
  { txid := tx.txid
    tfrom := if dao.1 then address else dao.2.2
    tto := if dao.1 then dao.2.2 else address
    value := to_standard_amount registry (.int actual_sats) chain_key
      contract true
    timestamp := tx.time.getD 0 * 1000
    symbol := "DASH" }

/-- Embedding of get_dash_transactions from the decoded txs list down
(res none models a falsy body or one without a txs key). -/
def get_dash_transactions (registry : String → Option CoinInfo)
    (chain_key address : String) (contract : Option String)
    (res : Option (List DashTxUpstream)) : List DashTxRecord :=
  match res with
  | none => []
  | some txs =>
    txs.map (dashTxEmit registry chain_key address contract)

/-! ## Sui history (services/extend/sui.py, get_sui_transactions,
lines 103-223) -/

/-- Owner object of a Sui balance change (owner AddressOwner). -/
structure SuiOwner where
  AddressOwner : Option String
deriving Repr, DecidableEq

/-- Balance change of a Sui transaction block; amount is an integer
string upstream, modelled by its decoded value (default 0 through
int(change.get("amount", 0))). -/
structure SuiBalanceChange where
  coinType : Option String
  owner : Option SuiOwner
  amount : Option ℤ
deriving Repr, DecidableEq

structure SuiTxData where
  sender : Option String
deriving Repr, DecidableEq

structure SuiTxInner where
  data : Option SuiTxData
deriving Repr, DecidableEq

/-- Fields of one suix_queryTransactionBlocks record read by the code.
timestampMs is a millisecond string upstream, modelled by its decoded
value. -/
structure SuiTxUpstream where
  digest : Option String
  timestampMs : Option ℕ
  transaction : Option SuiTxInner
  balanceChanges : Option (List SuiBalanceChange)
deriving Repr, DecidableEq

/-- Canonical record of the Sui history normalizer (the from and to
slots can hold Python None when a recipient candidate is a balance
change without an AddressOwner). -/
structure SuiTxRecord where
  txid : Option String
  tfrom : Option String
  tto : Option String
  value : String
  timestamp : ℕ
  symbol : String
deriving Repr, DecidableEq

/-- Update-or-append on the digest-keyed map (a Python dict keeps the
original position of a key when its value is overwritten). -/
def suiInsert (m : List (String × SuiTxUpstream)) (k : String)
    (v : SuiTxUpstream) : List (String × SuiTxUpstream) :=
  if m.any (fun q => q.1 = k) then
    m.map (fun q => if q.1 = k then (k, v) else q)
  else m ++ [(k, v)]

/-- One step of the de-duplication loop (a record is kept only under a
truthy digest). -/
def suiStep (m : List (String × SuiTxUpstream)) (tx : SuiTxUpstream) :
    List (String × SuiTxUpstream) :=
  match tx.digest with
  | some d => if d ≠ "" then suiInsert m d tx else m
  | none => m

/-- De-duplication of the merged from/to query results, keyed by
digest, in dict insertion order. -/
def suiDedup (l : List SuiTxUpstream) : List (String × SuiTxUpstream) :=
  l.foldl suiStep []

/-- Sort key int(x.get("timestampMs", 0)). -/
def suiKey (tx : SuiTxUpstream) : ℕ := tx.timestampMs.getD 0

/-- Stable descending insertion: the new record goes after every
record with a strictly larger key and after earlier records with an
equal key. -/
def suiInsertDesc (tx : SuiTxUpstream) :
    List SuiTxUpstream → List SuiTxUpstream
  | [] => [tx]
  | y :: ys =>
    if suiKey tx < suiKey y then y :: suiInsertDesc tx ys
    else tx :: y :: ys

/-- Model of sorted(..., key=..., reverse=True): a stable descending
sort by the timestampMs key. -/
def suiSortDesc (l : List SuiTxUpstream) : List SuiTxUpstream :=
  l.foldr suiInsertDesc []

/-- Loop body of the Sui parser (every step of the body is total, so
the try/except around it never fires in the model; records are
appended even when the direction stays unknown). -/
def suiTxEmit (registry : String → Option CoinInfo)
    (chain_key address : String) (contract : Option String)
    (tx : SuiTxUpstream) : SuiTxRecord :=
  let sender :=
    ((tx.transaction.getD ⟨none⟩).data.getD ⟨none⟩).sender.getD "Unknown"
  let changes := (tx.balanceChanges.getD []).filter
    (fun c => c.coinType == some "0x2::sui::SUI")
  let my_change : ℤ := (changes.map (fun c =>
    if (c.owner.getD ⟨none⟩).AddressOwner == some address then
      c.amount.getD 0
    else 0)).sum
  let receiver_candidates : List (Option String) := changes.filterMap
    (fun c =>
      let owner_address := (c.owner.getD ⟨none⟩).AddressOwner
      if 0 < c.amount.getD 0 ∧ owner_address ≠ some address ∧
          owner_address ≠ some sender then
        some owner_address
      else none)
  let odo : Bool × ℤ × Option String :=
    if 0 < my_change then (false, my_change, some sender)
    else if my_change < 0 then
      (true, |my_change|, receiver_candidates.headD (some "Contract/Gas"))
    else if sender = address then (true, 0, some "Interaction")
    else (false, 0, some "Interaction")
  { txid := tx.digest
    tfrom := if odo.1 then some address else odo.2.2
    tto := if odo.1 then odo.2.2 else some address
    value := to_standard_amount registry (.int odo.2.1) chain_key contract
      true
    timestamp := tx.timestampMs.getD 0
    symbol := "SUI" }

/-- Embedding of get_sui_transactions from the decoded from/to query
results down (res none models a falsy body or one without a data key):
merge, de-duplicate by digest, sort by timestampMs descending, take
limit, parse. -/
def get_sui_transactions (registry : String → Option CoinInfo)
    (chain_key address : String) (contract : Option String) (limit : ℕ)
    (res_from res_to : Option (List SuiTxUpstream)) : List SuiTxRecord :=
  ((suiSortDesc ((suiDedup (res_from.getD [] ++ res_to.getD [])).map
      (fun p => p.2))).take limit).map
    (suiTxEmit registry chain_key address contract)

/-! ## Tron history (services/core/tatum_provider.py,
_get_trx_transactions lines 778-835 and _fetch_tron_timestamp lines
614-627) -/

structure TronTokenInfo where
  symbol : Option String
deriving Repr, DecidableEq

/-- Parameter value of a native TRX contract entry.  The two has_
flags model the Python key-membership tests for asset_name and
assetNameUtf8. -/
structure TronParamValue where
  has_asset_name : Bool
  has_assetNameUtf8 : Bool
  ownerAddressBase58 : Option String
  owner_address : Option String
  toAddressBase58 : Option String
  to_address : Option String
  amount : Option ℤ
deriving Repr, DecidableEq

structure TronParameter where
  value : Option TronParamValue
deriving Repr, DecidableEq

structure TronContractItem where
  parameter : Option TronParameter
deriving Repr, DecidableEq

structure TronRawData where
  contract : Option (List TronContractItem)
  timestamp : Option ℕ
deriving Repr, DecidableEq

/-- Fields of one Tron transaction record read by either branch of the
loop; value is the raw TRC20 value passed to to_standard_amount. -/
structure TronTxUpstream where
  txID : Option String
  tfrom : Option String
  tto : Option String
  value : RawValue
  tokenInfo : Option TronTokenInfo
  rawData : Option TronRawData
deriving Repr, DecidableEq

structure TronTxRecord where
  txid : Option String
  tfrom : Option String
  tto : Option String
  value : String
  timestamp : ℕ
  symbol : String
deriving Repr, DecidableEq

/-- Decoded gettransactioninfobyid body; blockTimeStamp is already a
millisecond timestamp. -/
structure TronTsInfo where
  blockTimeStamp : Option ℕ
deriving Repr, DecidableEq

/-- Embedding of _fetch_tron_timestamp over a decoded RPC oracle: a
None response raises inside the try and returns 0, otherwise the
blockTimeStamp (default 0) is passed through unchanged. -/
def fetch_tron_timestamp (rpc : Option String → Option TronTsInfo)
    (tx_id : Option String) : ℕ :=
  match rpc tx_id with
  | none => 0
  | some res => res.blockTimeStamp.getD 0

/-- TRC20 branch of the _get_trx_transactions loop.  The positional
backfill of the gathered _fetch_tron_timestamp results writes the
fetched value of each record into its own placeholder slot (in TRC20
mode record i and task i come from the same tx), so the fetched value
is written directly. -/
def trc20TxEmit (registry : String → Option CoinInfo)
    (chain_key : String) (contract : Option String)
    (rpc : Option String → Option TronTsInfo) (tx : TronTxUpstream) :
    TronTxRecord :=
  { txid := tx.txID
    tfrom := tx.tfrom
    tto := tx.tto
    value := to_standard_amount registry tx.value chain_key contract true
    timestamp := fetch_tron_timestamp rpc tx.txID
    symbol := (tx.tokenInfo.getD ⟨none⟩).symbol.getD "USDT" }

/-- Native branch of the _get_trx_transactions loop (none models a
continue: no contract entry, or a non-native asset). -/
def tronNativeTxEmit (registry : String → Option CoinInfo)
    (chain_key : String) (contract : Option String) (tx : TronTxUpstream) :
    Option TronTxRecord :=
  match (tx.rawData.getD ⟨none, none⟩).contract.getD [] with
  | [] => none
  | c0 :: _ =>
    let pv := (c0.parameter.getD ⟨none⟩).value.getD
      ⟨false, false, none, none, none, none, none⟩
    if pv.has_asset_name ∨ pv.has_assetNameUtf8 then none
    else some
      { txid := tx.txID
        tfrom := pyOrOpt pv.ownerAddressBase58 pv.owner_address
        tto := pyOrOpt pv.toAddressBase58 pv.to_address
        value := to_standard_amount registry
          (match pv.amount with | some a => .int a | none => .null)
          chain_key contract true
        timestamp := (tx.rawData.getD ⟨none, none⟩).timestamp.getD 0
        symbol := "TRX" }

/-- Embedding of _get_trx_transactions from the decoded transaction
list down (res none models a body that is neither a dict with a
transactions key nor a list). -/
def get_trx_transactions (registry : String → Option CoinInfo)
    (chain_key address : String) (contract : Option String) (limit : ℕ)
    (rpc : Option String → Option TronTsInfo)
    (res : Option (List TronTxUpstream)) : List TronTxRecord :=
  if pyTruthy contract then
    ((res.getD []).take limit).map (trc20TxEmit registry chain_key contract
      rpc)
  else
    ((res.getD []).take limit).filterMap (tronNativeTxEmit registry
      chain_key contract)

/-! ## Solana history (services/core/tatum_provider.py,
_get_sol_transactions, lines 1050-1189) -/

structure SolSigItem where
  signature : Option String
deriving Repr, DecidableEq

/-- Entry of accountKeys: a plain string or an object read through
get("pubkey"). -/
inductive SolAccKey where
  | str (s : String) : SolAccKey
  | obj (pubkey : Option String) : SolAccKey
deriving Repr, DecidableEq

/-- Key string used in the my_index search: the string itself, or
get("pubkey", ""). -/
def solAccStr : SolAccKey → String
  | .str s => s
  | .obj pk => pk.getD ""

/-- Key value used in the recipient search: the string itself, or
get("pubkey") with no default (possibly None). -/
def solAccPubkey : SolAccKey → Option String
  | .str s => some s
  | .obj pk => pk

structure SolMeta where
  preBalances : Option (List ℤ)
  postBalances : Option (List ℤ)
deriving Repr, DecidableEq

structure SolMessage where
  accountKeys : Option (List SolAccKey)
deriving Repr, DecidableEq

structure SolTransaction where
  message : Option SolMessage
deriving Repr, DecidableEq

/-- Fields of one getTransaction result read by the loop body. -/
structure SolTxData where
  blockTime : Option ℕ
  meta : Option SolMeta
  transaction : Option SolTransaction
deriving Repr, DecidableEq

/-- Canonical record of the Solana history normalizer (the to slot can
hold Python None when the recipient found is an object without a
pubkey key). -/
structure SolTxRecord where
  txid : Option String
  tfrom : String
  tto : Option String
  value : String
  timestamp : ℕ
  symbol : String
deriving Repr, DecidableEq

/-- Recipient search of the outgoing branch over idx in
range(len(all_pre)): the first other index whose balance increased
breaks with its account key; reading past the end of postBalances or
accountKeys raises an uncaught IndexError. -/
def solRecipientLoop (ks : List SolAccKey) (all_pre all_post : List ℤ)
    (my_index : ℕ) : List ℕ → Except String (Option String)
  | [] => .ok (some "")
  | idx :: rest =>
    if idx = my_index then
      solRecipientLoop ks all_pre all_post my_index rest
    else
      match all_post.get? idx, all_pre.get? idx with
      | some post_v, some pre_v =>
        if 0 < post_v - pre_v then
          match ks.get? idx with
          | none => .error "IndexError: list index out of range"
          | some acc_key => .ok (solAccPubkey acc_key)
        else solRecipientLoop ks all_pre all_post my_index rest
      | _, _ => .error "IndexError: list index out of range"

/-- Loop body of _get_sol_transactions for one detail response:
ok none models a continue (no meta, address not among the account
keys, an IndexError or TypeError caught on the balance reads, or an
unchanged balance); error models the uncaught IndexError of the
recipient search. -/
def solTxEmit (registry : String → Option CoinInfo)
    (chain_key address : String) (contract : Option String) (nowSec : ℕ)
    (signature : Option String) (tx_data : SolTxData) :
    Except String (Option SolTxRecord) :=
  let block_time :=
    match tx_data.blockTime with
    | some b => if b ≠ 0 then b else nowSec
    | none => nowSec
  match tx_data.meta with
  | none => .ok none
  | some meta =>
    match (((tx_data.transaction.getD ⟨none⟩).message.getD
        ⟨none⟩).accountKeys.getD []).findIdx?
        (fun k => solAccStr k == address) with
    | none => .ok none
    | some my_index =>
      match (meta.preBalances.getD []).get? my_index,
          (meta.postBalances.getD []).get? my_index with
      | some pre_bal, some post_bal =>
        let diff := post_bal - pre_bal
        if 0 < diff then
          .ok (some
            { txid := signature
              tfrom := ""
              tto := some address
              value := to_standard_amount registry (.int diff) chain_key
                contract true
              timestamp := block_time * 1000
              symbol := "SOL" })
        else if diff < 0 then
          match solRecipientLoop
              (((tx_data.transaction.getD ⟨none⟩).message.getD
                ⟨none⟩).accountKeys.getD [])
              (meta.preBalances.getD []) (meta.postBalances.getD [])
              my_index (List.range (meta.preBalances.getD []).length) with
          | .error e => .error e
          | .ok t_addr =>
            .ok (some
              { txid := signature
                tfrom := address
                tto := t_addr
                value := to_standard_amount registry (.int |diff|)
                  chain_key contract true
                timestamp := block_time * 1000
                symbol := "SOL" })
        else .ok none
      | _, _ => .ok none

/-- Detail loop of _get_sol_transactions over the task indices: task i
was built from the i-th signature-bearing item, while the signature
stored in the record is read back from the unfiltered list at the same
index. -/
def solTxLoop (registry : String → Option CoinInfo)
    (chain_key address : String) (contract : Option String) (nowSec : ℕ)
    (sig_list valid : List SolSigItem)
    (rpc : String → Option SolTxData) :
    List ℕ → Except String (List SolTxRecord)
  | [] => .ok []
  | i :: rest =>
    match rpc (((valid.get? i).bind (fun it => it.signature)).getD "") with
    | none =>
      solTxLoop registry chain_key address contract nowSec sig_list valid
        rpc rest
    | some tx_data =>
      match solTxEmit registry chain_key address contract nowSec
          ((sig_list.get? i).bind (fun it => it.signature)) tx_data with
      | .error e => .error e
      | .ok none =>
        solTxLoop registry chain_key address contract nowSec sig_list
          valid rpc rest
      | .ok (some r) =>
        match solTxLoop registry chain_key address contract nowSec
            sig_list valid rpc rest with
        | .error e => .error e
        | .ok l => .ok (r :: l)

/-- Embedding of _get_sol_transactions from the decoded signature list
down.  rpc is the decoded getTransaction oracle (none models a missing,
result-less or null result, all of which continue); sigRes none models
a failed or result-less getSignaturesForAddress call. -/
def get_sol_transactions (registry : String → Option CoinInfo)
    (chain_key address : String) (contract : Option String) (nowSec : ℕ)
    (sigRes : Option (List SolSigItem))
    (rpc : String → Option SolTxData) :
    Except String (List SolTxRecord) :=
  match sigRes with
  | none => .ok []
  | some sig_list =>
    solTxLoop registry chain_key address contract nowSec sig_list
      (sig_list.filter (fun it => pyTruthy it.signature)) rpc
      (List.range (sig_list.filter (fun it => pyTruthy it.signature)).length)

/-! ## Value folds used to state digit-correctness lemmas -/

/-- Value of a little-endian base-10 digit list. -/
def valLE (l : List ℕ) : ℕ := l.foldr (fun d acc => d + 10 * acc) 0

/-- Value of a big-endian digit list in base 2 ^ b. -/
def beVal (b : ℕ) (l : List ℕ) : ℕ :=
  l.foldl (fun a d => a * 2 ^ b + d) 0

/-! ## Concrete sample data for witnesses and counterexamples -/

/-- Registry with a six-decimal ripple entry. -/
def xrpSampleReg : String → Option CoinInfo := fun k =>
  if k = "ripple" then some ⟨some "XRP", some 6⟩ else none

/-- Successful drop payment of 1 XRP. -/
def xrpSampleItem1 : XrpTxItem :=
  ⟨⟨some 795000000, some "HASH1", some "rSender", some "rDest",
    some "Payment", some (.str "1000000"), some 12⟩, ⟨some "tesSUCCESS"⟩⟩

/-- Failed payment (claimed-cost result code). -/
def xrpSampleItem2 : XrpTxItem :=
  ⟨⟨some 795000100, some "HASH2", some "rSender", some "rDest",
    some "Payment", some (.str "2000000"), some 12⟩, ⟨some "tecUNFUNDED"⟩⟩

/-- Successful drop payment of 2 XRP. -/
def xrpSampleItem3 : XrpTxItem :=
  ⟨⟨some 795000200, some "HASH3", some "rDest", some "rSender",
    some "Payment", some (.str "2000000"), some 12⟩, ⟨some "tesSUCCESS"⟩⟩

/-- A three-record account_tx response with one failed record. -/
def xrpSampleRes : XrpAccountTxResult :=
  ⟨some "success", some [xrpSampleItem1, xrpSampleItem2, xrpSampleItem3]⟩

/-- Successful payment whose record carries no date key. -/
def xrpNoDateRes : XrpAccountTxResult :=
  ⟨some "success", some [⟨⟨none, some "H", some "rF", some "rT",
    some "Payment", some (.str "1000000"), none⟩, ⟨some "tesSUCCESS"⟩⟩]⟩

/-- Successful payment whose Amount is neither a string nor an object
(the loop keeps the preset zero string). -/
def xrpOtherRes : XrpAccountTxResult :=
  ⟨some "success", some [⟨⟨some 1000000000, some "H", some "rS",
    some "rD", some "Payment", some .other, none⟩, ⟨some "tesSUCCESS"⟩⟩]⟩

/-- Hash160 of the standard CashAddr P2PKH test vector (the legacy
address 1BpEi6DfDAUFd7GtittLSdBeYJvcoaVggu). -/
def bchTestHash : List ℕ :=
  [0x76, 0xa0, 0x40, 0x53, 0xbd, 0xa0, 0xa8, 0x8b, 0xda, 0x51,
   0x77, 0xb8, 0x6a, 0x15, 0xc3, 0xb2, 0x9f, 0x55, 0x98, 0x73]

/-! ## Theorems -/

/-- Helper: the Batteries floor on Rat agrees with the Mathlib floor. -/
lemma ratFloor_eq_floor (q : ℚ) : q.floor = ⌊q⌋ := by
  rw [Rat.floor_def', Rat.floor_def]

/-- C1: for a TON seqno query, when getAddressInformation reports state
active and the runGetMethod seqno fetch fails or returns a malformed
stack, get_ton_account raises and never returns a record (in particular
never one with seqno 0); and for every account whose reported state is
not active, the returned record has seqno 0 and is_deployed false. -/
theorem ton_seqno_active_failure (info : TonInfo)
    (seq : Option (List (String × String))) :
    (info.state.getD "uninitialized" = "active" →
      (seq = none ∨ seq = some [] ∨
        (∃ tag v rest, seq = some ((tag, v) :: rest) ∧
          (tag ≠ "num" ∨ tonSeqnoParse v = none))) →
      (∃ msg, get_ton_account (some info) seq = .error msg) ∧
      (∀ acct, get_ton_account (some info) seq ≠ .ok acct)) ∧
    (info.state.getD "uninitialized" ≠ "active" →
      get_ton_account (some info) seq =
        .ok ⟨0, false, info.balance.getD "0", "0.01"⟩) := by
  constructor
  · intro hactive hfail
    have herr : ∃ msg, get_ton_account (some info) seq = .error msg := by
      rcases hfail with h | h | ⟨tag, v, rest, hseq, hbad⟩
      · subst h
        exact ⟨"Failed to fetch sequence number for active wallet",
          by simp [get_ton_account, hactive]⟩
      · subst h
        exact ⟨"Invalid seqno response from node",
          by simp [get_ton_account, hactive]⟩
      · subst hseq
        rcases hbad with htag | hparse
        · exact ⟨"Invalid seqno response from node",
            by simp [get_ton_account, hactive, htag]⟩
        · by_cases htag : tag = "num"
          · exact ⟨"invalid literal for int()",
              by simp [get_ton_account, hactive, htag, hparse]⟩
          · exact ⟨"Invalid seqno response from node",
              by simp [get_ton_account, hactive, htag]⟩
    refine ⟨herr, ?_⟩
    intro acct hok
    rcases herr with ⟨msg, hmsg⟩
    rw [hok] at hmsg
    exact Except.noConfusion hmsg
  · intro hinactive
    simp [get_ton_account, hinactive]

/-- C1 witness: a concrete active account whose seqno fetch fails
raises. -/
theorem ton_seqno_active_failure_witness :
    ∃ msg, get_ton_account (some ⟨some "active", some "123"⟩) none =
      .error msg :=
  ((ton_seqno_active_failure ⟨some "active", some "123"⟩ none).1 rfl
    (Or.inl rfl)).1

/-- C2: the BTC-family balance, from nonnegative upstream fields, is
incoming - outgoing + incomingPending (outgoingPending is never
subtracted when positive), floored at 0 before canonical rendering. -/
theorem btc_balance_reconciliation (registry : String → Option CoinInfo)
    (t_chain_path chain_key : String) (contract : Option String)
    (incoming outgoing ip op : ℚ) (h1 : 0 ≤ incoming) (h2 : 0 ≤ outgoing)
    (h3 : 0 ≤ ip) (h4 : 0 ≤ op) :
    btcFinalBalance incoming outgoing ip op =
      max (incoming - outgoing + ip) 0 ∧
    get_btc_balance registry t_chain_path chain_key contract
        (some ⟨some incoming, some outgoing, some ip, some op⟩) =
      to_standard_amount registry (.num (max (incoming - outgoing + ip) 0))
        chain_key contract false := by
  have harith : btcFinalBalance incoming outgoing ip op =
      max (incoming - outgoing + ip) 0 := by
    simp only [btcFinalBalance]
    have hop0 : ¬ op > 0 → op = 0 := fun h => le_antisymm (not_lt.mp h) h4
    rcases max_cases (incoming - outgoing + ip) 0 with ⟨hm, hm2⟩ | ⟨hm, hm2⟩ <;>
      split_ifs with ha hb <;>
      first
        | linarith
        | (rw [hm]; linarith)
        | (rw [hm]; have hz0 := hop0 ha; linarith)
        | (have hz0 := hop0 ha; linarith)
  refine ⟨harith, ?_⟩
  simp only [get_btc_balance, Option.getD_some, harith]

/-- C2 witness: concrete nonnegative fields. -/
theorem btc_balance_reconciliation_witness :
    btcFinalBalance 5 1 2 3 = max (5 - 1 + 2) 0 ∧
    get_btc_balance (fun _ => none) "bitcoin" "bitcoin" none
        (some ⟨some 5, some 1, some 2, some 3⟩) =
      to_standard_amount (fun _ => none) (.num (max (5 - 1 + 2) 0))
        "bitcoin" none false :=
  btc_balance_reconciliation (fun _ => none) "bitcoin" "bitcoin" none
    5 1 2 3 (by norm_num) (by norm_num) (by norm_num) (by norm_num)

/-- C3: the XRP broadcast returns the transaction hash of the submit
response exactly when the response carries an engine_result string
starting with tes; for every other engine_result, a missing
engine_result, or a missing response, it returns the empty string. -/
theorem xrp_broadcast_tes_only (res : Option XrpSubmitResult) :
    (∀ r er, res = some r → r.engine_result = some er →
      er.startsWith "tes" = true →
      broadcast_xrp_transaction res = r.tx_hash) ∧
    (∀ r er, res = some r → r.engine_result = some er →
      er.startsWith "tes" = false →
      broadcast_xrp_transaction res = some "") ∧
    (∀ r, res = some r → r.engine_result = none →
      broadcast_xrp_transaction res = some "") ∧
    (res = none → broadcast_xrp_transaction res = some "") := by
  refine ⟨?_, ?_, ?_, ?_⟩
  · intro r er hres her htes
    subst hres
    simp [broadcast_xrp_transaction, her, htes]
  · intro r er hres her htes
    subst hres
    have hne : er ≠ "tesSUCCESS" := by
      intro h
      subst h
      rw [show "tesSUCCESS".startsWith "tes" = true by
        with_unfolding_all decide] at htes
      exact Bool.noConfusion htes
    simp [broadcast_xrp_transaction, her, htes, hne]
  · intro r hres her
    subst hres
    simp [broadcast_xrp_transaction, her]
  · intro h
    subst h
    rfl

/-- C3 witness: a tec engine result yields the empty string and a tes
engine result yields the reported hash, at concrete inputs. -/
theorem xrp_broadcast_tes_only_witness :
    broadcast_xrp_transaction (some ⟨some "tecUNFUNDED_PAYMENT", some "AB"⟩)
        = some "" ∧
    broadcast_xrp_transaction (some ⟨some "tesSUCCESS", some "AB"⟩)
        = some "AB" :=
  ⟨(xrp_broadcast_tes_only (some ⟨some "tecUNFUNDED_PAYMENT", some "AB"⟩)).2.1
      _ _ rfl rfl (by with_unfolding_all decide),
    (xrp_broadcast_tes_only (some ⟨some "tesSUCCESS", some "AB"⟩)).1
      _ _ rfl rfl (by with_unfolding_all decide)⟩

/-- C9 (amended): gasPrice is max(upstream, floor) on BSC (3 Gwei) and
AVAX (25 Gwei); on ETC the upstream value is used as it is and 1 Gwei is
only the default when the RPC yields no result; gasLimit is 21000 for a
native transfer and 100000 when a token contract is given. -/
theorem evm_gas_estimate (v : ℕ) (w : Option ℕ) (contract : Option String) :
    (bsc_get_estimate_gas (some v) contract).gasPrice =
      natStr (max v 3000000000) ∧
    (bsc_get_estimate_gas none contract).gasPrice = natStr 3000000000 ∧
    (avax_get_estimate_gas (some v) contract).gasPrice =
      natStr (max v 25000000000) ∧
    (avax_get_estimate_gas none contract).gasPrice = natStr 25000000000 ∧
    (etc_get_estimate_gas (some v) contract).gasPrice = natStr v ∧
    (etc_get_estimate_gas none contract).gasPrice = natStr 1000000000 ∧
    (bsc_get_estimate_gas w contract).gasLimit =
      natStr (if pyTruthy contract then 100000 else 21000) ∧
    (avax_get_estimate_gas w contract).gasLimit =
      natStr (if pyTruthy contract then 100000 else 21000) ∧
    (etc_get_estimate_gas w contract).gasLimit =
      natStr (if pyTruthy contract then 100000 else 21000) := by
  refine ⟨rfl, ?_, rfl, ?_, rfl, rfl, rfl, rfl, rfl⟩ <;>
    simp [bsc_get_estimate_gas, avax_get_estimate_gas]

/-- C9 counterexample: with an upstream gas price of 1 wei the ETC
adapter returns 1, not the floored 1 Gwei that the claim requires. -/
theorem evm_gas_estimate_counterexample :
    (etc_get_estimate_gas (some 1) none).gasPrice = "1" ∧
    natStr (max 1 1000000000) = "1000000000" ∧
    ("1" : String) ≠ "1000000000" := by
  refine ⟨by decide, by decide, by decide⟩

/-- C10 (amended): a non-null, non-empty contract that has no
case-insensitive match in ALLOW_TOKENS makes the codec return the
sentinel, for every raw value, chain key and flag; the codec never
consults the registry when such a contract is present. -/
theorem unknown_contract_sentinel (registry : String → Option CoinInfo)
    (raw : RawValue) (chain_key c : String) (force_raw : Bool)
    (hne : c ≠ "")
    (hnf : ALLOW_TOKENS.find? (fun t => t.contract.toLower = c.toLower)
      = none) :
    to_standard_amount registry raw chain_key (some c) force_raw
      = "-0.000000" := by
  have hres : resolveDecimals registry chain_key (some c) = none := by
    simp [resolveDecimals, pyTruthy, hne, hnf]
  simp [to_standard_amount, hres]

/-- C10 witness: a concrete unknown contract returns the sentinel. -/
theorem unknown_contract_sentinel_witness :
    to_standard_amount (fun _ => some ⟨some "ETH", some 18⟩) (.int 123)
      "ethereum" (some "0xDEAD") true = "-0.000000" :=
  unknown_contract_sentinel (fun _ => some ⟨some "ETH", some 18⟩)
    (.int 123) "ethereum" "0xDEAD" true (by decide)
    (by with_unfolding_all decide)

/-- C10 counterexample: the claim as stated fails for the non-null
empty-string contract, which is not in the whitelist yet falls back to
the registry decimals instead of producing the sentinel. -/
theorem unknown_contract_sentinel_counterexample :
    (∀ t ∈ ALLOW_TOKENS, t.contract.toLower ≠ ("" : String).toLower) ∧
    to_standard_amount
        (fun k => if k = "tron" then some ⟨some "TRX", some 6⟩ else none)
        (.int 5) "tron" (some "") true = "0.000005" ∧
    ("0.000005" : String) ≠ "-0.000000" := by
  refine ⟨by with_unfolding_all decide, ?_, by decide⟩
  with_unfolding_all decide

/-- Helper: rounding an integer is the identity. -/
lemma rhe_intCast (z : ℤ) : rhe (z : ℚ) = z := by
  simp only [rhe, ratFloor_eq_floor, Int.floor_intCast, sub_self]
  rw [if_pos (by norm_num)]

/-- Helper: padded digits of zero are all zero. -/
lemma leDigitsPadded_zero (p : ℕ) :
    leDigitsPadded 0 p = List.replicate p 0 := by
  induction p with
  | zero => rfl
  | succ p ih => simp [leDigitsPadded, ih, List.replicate_succ]

/-- Helper: the zero fractional block is a run of zero characters. -/
lemma fracStr_zero (p : ℕ) :
    fracStr 0 p = String.mk (List.replicate p '0') := by
  have hc : digitChar10 0 = '0' := rfl
  simp [fracStr, leDigitsPadded_zero, List.map_replicate, hc]

/-- Helper: rendering the value zero gives the zero digit string with p
fractional digits. -/
lemma fmtQ_zero (p : ℕ) :
    fmtQ 0 p =
      if p = 0 then "0" else "0." ++ String.mk (List.replicate p '0') := by
  have h0 : rhe ((0 : ℚ) * 10 ^ p) = 0 := by
    rw [zero_mul]
    exact_mod_cast rhe_intCast 0
  by_cases hp : p = 0
  · subst hp
    simp only [fmtQ, h0, Int.natAbs_zero, if_pos rfl,
      if_neg (lt_irrefl (0 : ℚ))]
    rfl
  · simp only [fmtQ, h0, Int.natAbs_zero, if_neg hp,
      if_neg (lt_irrefl (0 : ℚ)), Nat.zero_div, Nat.zero_mod, fracStr_zero]
    rfl

/-- C6 (amended): with resolved decimals d, the codec renders the raw
value 0 as the zero string with min d 8 fractional digits, which equals
"0.000000" exactly when min d 8 = 6; a null raw value always renders as
"0.000000" regardless of decimals. -/
theorem amount_codec_zero (registry : String → Option CoinInfo)
    (chain_key : String) (contract : Option String) (force_raw : Bool)
    (d : ℕ) (hd : resolveDecimals registry chain_key contract = some d) :
    to_standard_amount registry (.int 0) chain_key contract force_raw =
      (if min d 8 = 0 then "0"
       else "0." ++ String.mk (List.replicate (min d 8) '0')) ∧
    to_standard_amount registry .null chain_key contract force_raw
      = "0.000000" ∧
    (to_standard_amount registry (.int 0) chain_key contract force_raw
        = "0.000000" ↔ min d 8 = 6) := by
  have hzero : to_standard_amount registry (.int 0) chain_key contract
      force_raw = fmtQ 0 (min d 8) := by
    cases force_raw <;> simp [to_standard_amount, hd]
  rw [hzero, fmtQ_zero]
  refine ⟨rfl, by simp [to_standard_amount, hd], ?_⟩
  constructor
  · intro h
    by_cases hp : min d 8 = 0
    · rw [if_pos hp] at h
      exact absurd h (by decide)
    · rw [if_neg hp] at h
      have hlen := congrArg (fun s => s.data.length) h
      simp only [String.data] at hlen
      simpa using hlen
  · intro h
    rw [h]
    rfl

/-- C6 witness: a resolving six-decimal token renders zero as exactly
"0.000000". -/
theorem amount_codec_zero_witness :
    to_standard_amount (fun _ => none) (.int 0) "ethereum"
        (some "0xdAC17F958D2ee523a2206206994597C13D831ec7") true
      = (if min 6 8 = 0 then "0"
         else "0." ++ String.mk (List.replicate (min 6 8) '0')) :=
  (amount_codec_zero (fun _ => none) "ethereum"
    (some "0xdAC17F958D2ee523a2206206994597C13D831ec7") true 6
    (by with_unfolding_all decide)).1

/-- C6 counterexample: on the whitelisted 18-decimal ARB token the raw
value 0 renders with eight fractional digits, not as "0.000000". -/
theorem amount_codec_zero_counterexample :
    resolveDecimals (fun _ => none) "arbitrum"
        (some "0x912CE59144191C1204E64559FE8253a0e49E6548") = some 18 ∧
    to_standard_amount (fun _ => none) (.int 0) "arbitrum"
        (some "0x912CE59144191C1204E64559FE8253a0e49E6548") true
      = "0.00000000" ∧
    ("0.00000000" : String) ≠ "0.000000" := by
  refine ⟨by with_unfolding_all decide, by with_unfolding_all decide,
    by decide⟩

/-- Helper: the record loop of the XRP normalizer is a filterMap of the
per-record emitter. -/
lemma xrpTxLoop_eq_filterMap (registry : String → Option CoinInfo)
    (chain_key : String) (contract : Option String) (l : List XrpTxItem) :
    xrpTxLoop registry chain_key contract l =
      l.filterMap (xrpEmit registry chain_key contract) := by
  induction l with
  | nil => rfl
  | cons item rest ih =>
    by_cases h1 : item.meta.TransactionResult ≠ some "tesSUCCESS"
    · simp [xrpTxLoop, xrpEmit, h1, ih]
    · by_cases h2 : item.tx.TransactionType ≠ some "Payment"
      · simp [xrpTxLoop, xrpEmit, h1, h2, ih]
      · cases hA : item.tx.Amount.getD (.str "0") <;>
          simp [xrpTxLoop, xrpEmit, h1, h2, hA, ih]

/-- Helper: the per-record emitter skips exactly the failed, non-Payment
and issued-token records. -/
lemma xrpEmit_eq_none_iff (registry : String → Option CoinInfo)
    (chain_key : String) (contract : Option String) (item : XrpTxItem) :
    xrpEmit registry chain_key contract item = none ↔
      (item.meta.TransactionResult ≠ some "tesSUCCESS" ∨
        item.tx.TransactionType ≠ some "Payment" ∨
        item.tx.Amount.getD (.str "0") = .obj) := by
  constructor
  · intro h
    by_cases h1 : item.meta.TransactionResult ≠ some "tesSUCCESS"
    · exact Or.inl h1
    · by_cases h2 : item.tx.TransactionType ≠ some "Payment"
      · exact Or.inr (Or.inl h2)
      · refine Or.inr (Or.inr ?_)
        cases hA : item.tx.Amount.getD (.str "0")
        · rw [xrpEmit, if_neg h1, if_neg h2, hA] at h
          exact Option.noConfusion h
        · rfl
        · rw [xrpEmit, if_neg h1, if_neg h2, hA] at h
          exact Option.noConfusion h
  · intro h
    rcases h with h | h | h
    · simp [xrpEmit, h]
    · by_cases h1 : item.meta.TransactionResult ≠ some "tesSUCCESS" <;>
        simp [xrpEmit, h, h1]
    · rw [xrpEmit, h]
      split_ifs <;> rfl

/-- Helper: fields of an emitted XRP transfer: the timestamp is the
Ripple-epoch shift in milliseconds and a string amount goes through the
codec. -/
lemma xrpEmit_some_fields (registry : String → Option CoinInfo)
    (chain_key : String) (contract : Option String) (item : XrpTxItem)
    (t : Transfer)
    (h : xrpEmit registry chain_key contract item = some t) :
    t.timestamp = (item.tx.date.getD 0 + 946684800) * 1000 ∧
    (∀ s, item.tx.Amount.getD (.str "0") = .str s →
      t.value = to_standard_amount registry (.strv s) chain_key contract
        true) := by
  rw [xrpEmit] at h
  split_ifs at h with h1 h2
  cases hA : item.tx.Amount.getD (.str "0") <;> rw [hA] at h
  · cases h
    refine ⟨rfl, fun s hs => ?_⟩
    cases hs
    rfl
  · exact Option.noConfusion h
  · cases h
    exact ⟨rfl, fun s hs => XrpAmount.noConfusion hs⟩

/-- C4: the XRP history normalizer emits exactly the records with
TransactionResult tesSUCCESS, TransactionType Payment and a non-object
Amount; every emitted transfer carries timestamp
(date + 946684800) * 1000 milliseconds, and a string Amount of drops is
converted through the AmountCodec. -/
theorem xrp_history_normalization (registry : String → Option CoinInfo)
    (chain_key address : String) (contract : Option String)
    (result : XrpAccountTxResult)
    (hstatus : result.status = some "success") :
    get_xrp_transactions registry chain_key address contract
        (some result) =
      (result.transactions.getD []).filterMap
        (xrpEmit registry chain_key contract) ∧
    (∀ item, xrpEmit registry chain_key contract item = none ↔
      (item.meta.TransactionResult ≠ some "tesSUCCESS" ∨
        item.tx.TransactionType ≠ some "Payment" ∨
        item.tx.Amount.getD (.str "0") = .obj)) ∧
    (∀ item t, xrpEmit registry chain_key contract item = some t →
      t.timestamp = (item.tx.date.getD 0 + 946684800) * 1000 ∧
      (∀ s, item.tx.Amount.getD (.str "0") = .str s →
        t.value = to_standard_amount registry (.strv s) chain_key contract
          true)) := by
  refine ⟨?_, fun item => xrpEmit_eq_none_iff registry chain_key contract
    item, fun item t h => xrpEmit_some_fields registry chain_key contract
    item t h⟩
  simp [get_xrp_transactions, hstatus, xrpTxLoop_eq_filterMap]

/-- C4 witness: the three-record sample response (one tec failure)
normalizes through the emitter and yields two transfers. -/
theorem xrp_history_normalization_witness :
    get_xrp_transactions xrpSampleReg "ripple" "rSender" none
        (some xrpSampleRes) =
      (xrpSampleRes.transactions.getD []).filterMap
        (xrpEmit xrpSampleReg "ripple" none) ∧
    ((xrpSampleRes.transactions.getD []).filterMap
        (xrpEmit xrpSampleReg "ripple" none)).length = 2 :=
  ⟨(xrp_history_normalization xrpSampleReg "ripple" "rSender" none
      xrpSampleRes rfl).1, by with_unfolding_all decide⟩

/-- Helper: an element of a stable descending insertion is the
inserted record or one of the old records. -/
lemma mem_suiInsertDesc {x t : SuiTxUpstream} :
    ∀ {l : List SuiTxUpstream}, x ∈ suiInsertDesc t l → x = t ∨ x ∈ l := by
  intro l
  induction l with
  | nil =>
    intro h
    rw [suiInsertDesc] at h
    exact Or.inl (List.mem_singleton.mp h)
  | cons y ys ih =>
    intro h
    rw [suiInsertDesc] at h
    split_ifs at h with hk
    · rcases List.mem_cons.mp h with h | h
      · exact Or.inr (h ▸ List.mem_cons_self y ys)
      · rcases ih h with h | h
        · exact Or.inl h
        · exact Or.inr (List.mem_cons_of_mem y h)
    · rcases List.mem_cons.mp h with h | h
      · exact Or.inl h
      · exact Or.inr h

/-- Helper: the stable descending sort permutes within the input
records. -/
lemma mem_suiSortDesc {x : SuiTxUpstream} :
    ∀ {l : List SuiTxUpstream}, x ∈ suiSortDesc l → x ∈ l := by
  intro l
  induction l with
  | nil => intro h; exact absurd h (by simp [suiSortDesc])
  | cons y ys ih =>
    intro h
    have h' : x ∈ suiInsertDesc y (suiSortDesc ys) := h
    rcases mem_suiInsertDesc h' with h | h
    · exact h ▸ List.mem_cons_self y ys
    · exact List.mem_cons_of_mem y (ih h)

/-- Helper: an entry of the updated digest map is an old entry or the
new pair. -/
lemma mem_suiInsert {p : String × SuiTxUpstream}
    (m : List (String × SuiTxUpstream)) (k : String) (v : SuiTxUpstream)
    (h : p ∈ suiInsert m k v) : p ∈ m ∨ p = (k, v) := by
  rw [suiInsert] at h
  split_ifs at h with hm
  · rcases List.mem_map.mp h with ⟨q, hq, hpq⟩
    by_cases hk : q.1 = k
    · rw [if_pos hk] at hpq
      exact Or.inr hpq.symm
    · rw [if_neg hk] at hpq
      exact Or.inl (hpq ▸ hq)
  · rcases List.mem_append.mp h with h | h
    · exact Or.inl h
    · exact Or.inr (List.mem_singleton.mp h)

/-- Helper: every record stored by the de-duplication fold comes from
the accumulator or from the input list. -/
lemma mem_suiDedup_val (l : List SuiTxUpstream) :
    ∀ (acc : List (String × SuiTxUpstream)) (p : String × SuiTxUpstream),
      p ∈ l.foldl suiStep acc → p ∈ acc ∨ p.2 ∈ l := by
  induction l with
  | nil => intro acc p h; exact Or.inl h
  | cons tx l ih =>
    intro acc p h
    rcases ih (suiStep acc tx) p h with h | h
    · rcases hd : tx.digest with _ | d
      · simp only [suiStep, hd] at h
        exact Or.inl h
      · simp only [suiStep, hd] at h
        split_ifs at h with hne
        · rcases mem_suiInsert acc d tx h with h | h
          · exact Or.inl h
          · exact Or.inr (by rw [h]; exact List.mem_cons_self tx l)
        · exact Or.inl h
    · exact Or.inr (List.mem_cons_of_mem tx h)

/-- Helper: every record the Solana loop body emits carries a
timestamp scaled from seconds to milliseconds. -/
lemma solTxEmit_timestamp (registry : String → Option CoinInfo)
    (chain_key address : String) (contract : Option String) (nowSec : ℕ)
    (signature : Option String) (tx_data : SolTxData) (r : SolTxRecord)
    (h : solTxEmit registry chain_key address contract nowSec signature
      tx_data = .ok (some r)) : 1000 ∣ r.timestamp := by
  simp only [solTxEmit] at h
  repeat' split at h
  all_goals simp only [Except.ok.injEq, Option.some.injEq,
    reduceCtorEq] at h
  all_goals subst h
  all_goals exact dvd_mul_left 1000 _

/-- Helper: the Solana detail loop only accumulates records whose
timestamps are multiples of 1000. -/
lemma solTxLoop_timestamp (registry : String → Option CoinInfo)
    (chain_key address : String) (contract : Option String) (nowSec : ℕ)
    (sig_list valid : List SolSigItem) (rpc : String → Option SolTxData) :
    ∀ (idxs : List ℕ) (l : List SolTxRecord),
      solTxLoop registry chain_key address contract nowSec sig_list valid
        rpc idxs = .ok l → ∀ r ∈ l, 1000 ∣ r.timestamp := by
  intro idxs
  induction idxs with
  | nil =>
    intro l h r hr
    rw [solTxLoop] at h
    injection h with h'
    subst h'
    cases hr
  | cons i rest ih =>
    intro l h r hr
    rw [solTxLoop] at h
    rcases hrpc : rpc (((valid.get? i).bind
        (fun it => it.signature)).getD "") with _ | tx_data
    · simp only [hrpc] at h
      exact ih l h r hr
    · simp only [hrpc] at h
      rcases hemit : solTxEmit registry chain_key address contract nowSec
          ((sig_list.get? i).bind (fun it => it.signature)) tx_data with
        e | o
      · simp only [hemit] at h
        exact Except.noConfusion h
      · simp only [hemit] at h
        match o with
        | none => exact ih l h r hr
        | some rec =>
          rcases hrest : solTxLoop registry chain_key address contract
              nowSec sig_list valid rpc rest with e | l'
          · simp only [hrest] at h
            exact Except.noConfusion h
          · simp only [hrest] at h
            injection h with h'
            subst h'
            rcases List.mem_cons.mp hr with hr | hr
            · exact hr ▸ solTxEmit_timestamp registry chain_key address
                contract nowSec _ tx_data rec hemit
            · exact ih l' hrest r hr

/-- C5 (amended): every history normalizer emits millisecond
timestamps, but not all by scaling seconds, and the 10 ^ 12-or-0 bound
fails.  The XRP normalizer produces multiples of 1000 that are at
least 946684800000 (the Ripple epoch in ms, below 10 ^ 12); the
Etherscan, TON and Dash normalizers produce multiples of 1000 (zero
seconds for an absent time); the BTC-family normalizer produces a
multiple of 1000 or the current wall-clock milliseconds; the Solana
normalizer produces multiples of 1000 (the current clock in seconds
replaces a missing or zero blockTime); the Sui normalizer passes the
upstream millisecond timestampMs of some input record through
unchanged; the Tron normalizer passes through either the millisecond
blockTimeStamp fetched for the record's transaction id (TRC20 branch)
or the millisecond rawData timestamp of some input record (native
branch). -/
theorem transfer_timestamp_milliseconds
    (registry : String → Option CoinInfo)
    (t_chain_path chain_key address : String) (contract : Option String)
    (nowMs nowSec limit : ℕ) (res_x : Option XrpAccountTxResult)
    (res_e : Option (List EthTxIn)) (res_b : Option (List BtcTxUpstream))
    (res_t : Option (List TonTxUpstream))
    (res_d : Option (List DashTxUpstream))
    (res_sf res_st : Option (List SuiTxUpstream))
    (res_r : Option (List TronTxUpstream))
    (rpcT : Option String → Option TronTsInfo)
    (sigRes : Option (List SolSigItem))
    (rpcS : String → Option SolTxData) :
    (∀ t ∈ get_xrp_transactions registry chain_key address contract res_x,
      946684800000 ≤ t.timestamp ∧ 1000 ∣ t.timestamp) ∧
    (∀ r ∈ etherscan_get_transactions registry chain_key address contract
      res_e, (1000 : ℤ) ∣ r.timestamp) ∧
    (∀ r ∈ get_btc_transactions registry t_chain_path chain_key address
      contract nowMs res_b, 1000 ∣ r.timestamp ∨ r.timestamp = nowMs) ∧
    (∀ r ∈ get_ton_transactions registry chain_key address contract res_t,
      1000 ∣ r.timestamp) ∧
    (∀ r ∈ get_dash_transactions registry chain_key address contract
      res_d, 1000 ∣ r.timestamp) ∧
    (∀ l, get_sol_transactions registry chain_key address contract nowSec
      sigRes rpcS = .ok l → ∀ r ∈ l, 1000 ∣ r.timestamp) ∧
    (∀ r ∈ get_sui_transactions registry chain_key address contract limit
      res_sf res_st, ∃ tx ∈ res_sf.getD [] ++ res_st.getD [],
      r.timestamp = tx.timestampMs.getD 0) ∧
    (∀ r ∈ get_trx_transactions registry chain_key address contract limit
      rpcT res_r, ∃ tx ∈ (res_r.getD []).take limit,
      r.timestamp = fetch_tron_timestamp rpcT tx.txID ∨
      r.timestamp = (tx.rawData.getD ⟨none, none⟩).timestamp.getD 0) := by
  refine ⟨?_, ?_, ?_, ?_, ?_, ?_, ?_, ?_⟩
  · intro t ht
    match res_x with
    | none => exact absurd ht (by simp [get_xrp_transactions])
    | some result =>
      rw [get_xrp_transactions] at ht
      split_ifs at ht with hs
      · exact absurd ht (by simp)
      · rw [xrpTxLoop_eq_filterMap] at ht
        rcases List.mem_filterMap.mp ht with ⟨item, _, hemit⟩
        have hts := (xrpEmit_some_fields registry chain_key contract item
          t hemit).1
        constructor
        · rw [hts]
          have : 946684800 ≤ item.tx.date.getD 0 + 946684800 := by omega
          calc 946684800000 = 946684800 * 1000 := by norm_num
            _ ≤ (item.tx.date.getD 0 + 946684800) * 1000 := by omega
        · exact ⟨_, by rw [hts, Nat.mul_comm]⟩
  · intro r hr
    match res_e with
    | none => exact absurd hr (by simp [etherscan_get_transactions])
    | some tx_list =>
      rw [etherscan_get_transactions] at hr
      rcases List.mem_filterMap.mp hr with ⟨tx, _, hemit⟩
      rw [ethTxEmit] at hemit
      rcases hts : (match tx.timeStamp with
        | none => some 0
        | some s => pyIntDec s) with _ | n
      · rw [hts] at hemit
        exact Option.noConfusion hemit
      · rw [hts] at hemit
        cases hemit
        exact ⟨n, by rw [Int.mul_comm]⟩
  · intro r hr
    match res_b with
    | none => exact absurd hr (by simp [get_btc_transactions])
    | some raw_txs =>
      rw [get_btc_transactions] at hr
      rcases List.mem_map.mp hr with ⟨tx, _, hemit⟩
      subst hemit
      rw [btcTxEmit]
      rcases tx.time with _ | tsec
      · exact Or.inr rfl
      · by_cases h0 : tsec ≠ 0
        · exact Or.inl (by simp [h0, Nat.dvd_mul_left])
        · simp at h0
          exact Or.inr (by simp [h0])
  · intro r hr
    match res_t with
    | none => exact absurd hr (by simp [get_ton_transactions])
    | some raw_txs =>
      rw [get_ton_transactions] at hr
      rcases List.mem_map.mp hr with ⟨tx, _, hemit⟩
      subst hemit
      exact dvd_mul_left 1000 (tx.utime.getD 0)
  · intro r hr
    match res_d with
    | none => exact absurd hr (by simp [get_dash_transactions])
    | some txs =>
      rw [get_dash_transactions] at hr
      rcases List.mem_map.mp hr with ⟨tx, _, hemit⟩
      subst hemit
      exact dvd_mul_left 1000 (tx.time.getD 0)
  · intro l hl r hr
    match sigRes with
    | none =>
      rw [get_sol_transactions] at hl
      injection hl with h'
      subst h'
      cases hr
    | some sig_list =>
      rw [get_sol_transactions] at hl
      exact solTxLoop_timestamp registry chain_key address contract nowSec
        sig_list _ rpcS _ l hl r hr
  · intro r hr
    simp only [get_sui_transactions] at hr
    rcases List.mem_map.mp hr with ⟨tx, htx, hemit⟩
    have h2 := mem_suiSortDesc (List.take_subset _ _ htx)
    rcases List.mem_map.mp h2 with ⟨p, hp, hptx⟩
    rcases mem_suiDedup_val _ [] p hp with h | h
    · cases h
    · exact ⟨tx, hptx ▸ h, by subst hemit; rfl⟩
  · intro r hr
    rw [get_trx_transactions] at hr
    split_ifs at hr with hc
    · rcases List.mem_map.mp hr with ⟨tx, htx, hemit⟩
      subst hemit
      exact ⟨tx, htx, Or.inl rfl⟩
    · rcases List.mem_filterMap.mp hr with ⟨tx, htx, hemit⟩
      refine ⟨tx, htx, Or.inr ?_⟩
      simp only [tronNativeTxEmit] at hemit
      split at hemit
      · exact absurd hemit (by simp)
      · split at hemit
        · exact absurd hemit (by simp)
        · injection hemit with h'
          subst h'
          rfl

/-- C5 witness: the XRP normalizer at a concrete input produces a
timestamp of the stated shape. -/
theorem transfer_timestamp_milliseconds_witness :
    946684800000 ≤ (1946684800000 : ℕ) ∧ (1000 : ℕ) ∣ 1946684800000 :=
  (transfer_timestamp_milliseconds xrpSampleReg "bitcoin" "ripple" "rS"
      none 1700000000123 1700000000 10 (some xrpOtherRes) none none none
      none none none none (fun _ => none) none (fun _ => none)).1
    ⟨"H", "rS", "rD", "0", 1946684800000, "XRP"⟩
    (by decide)

/-- C5 counterexample: a valid tesSUCCESS Payment whose record has no
date makes the normalizer emit exactly one transfer, with timestamp
946684800000, which is neither at least 10 ^ 12 nor zero. -/
theorem transfer_timestamp_milliseconds_counterexample :
    (get_xrp_transactions xrpSampleReg "ripple" "rF" none
        (some xrpNoDateRes)).map (fun t => t.timestamp) = [946684800000] ∧
    ¬(10 ^ 12 ≤ (946684800000 : ℕ) ∨ (946684800000 : ℕ) = 0) :=
  ⟨by decide, by decide⟩

/-! ### Digit machinery for the amount round trip -/

/-- Helper: appending strings concatenates their character data. -/
lemma data_append (s t : String) : (s ++ t).data = s.data ++ t.data := by
  cases s
  cases t
  rfl

/-- Helper: digit list correctness of natDigitsAux. -/
lemma natDigitsAux_valLE : ∀ (fuel n : ℕ), n ≤ fuel →
    valLE (natDigitsAux fuel n) = n := by
  intro fuel
  induction fuel with
  | zero =>
    intro n hn
    have : n = 0 := by omega
    subst this
    rfl
  | succ fuel ih =>
    intro n hn
    match n with
    | 0 => rfl
    | n + 1 =>
      have hdiv : (n + 1) / 10 ≤ fuel := by
        have := Nat.div_lt_self (Nat.succ_pos n) (by norm_num : (1 : ℕ) < 10)
        omega
      have hrec := ih ((n + 1) / 10) hdiv
      simp only [natDigitsAux, valLE, List.foldr_cons]
      simp only [valLE] at hrec
      rw [hrec]
      exact Nat.mod_add_div (n + 1) 10

/-- Helper: natDigitsAux digits are below 10. -/
lemma natDigitsAux_lt : ∀ (fuel n x : ℕ), x ∈ natDigitsAux fuel n →
    x < 10 := by
  intro fuel
  induction fuel with
  | zero =>
    intro n x hx
    simp [natDigitsAux] at hx
  | succ fuel ih =>
    intro n x hx
    match n with
    | 0 => simp [natDigitsAux] at hx
    | n + 1 =>
      simp only [natDigitsAux, List.mem_cons] at hx
      rcases hx with h | h
      · subst h
        exact Nat.mod_lt _ (by norm_num)
      · exact ih _ _ h

/-- Helper: character values of the digit characters. -/
lemma decDigitVal_digitChar10 : ∀ d, d < 10 →
    decDigitVal (digitChar10 d) = some d := by decide

/-- Helper: digit characters are neither the point nor the minus sign.
-/
lemma digitChar10_ne : ∀ d, d < 10 →
    digitChar10 d ≠ '.' ∧ digitChar10 d ≠ '-' := by decide

/-- Helper: parsing rendered digit characters folds their values. -/
lemma parseDigitsAcc_map : ∀ (ds : List ℕ) (acc : ℕ),
    (∀ x ∈ ds, x < 10) →
    parseDigitsAcc acc (ds.map digitChar10) =
      some (ds.foldl (fun a x => a * 10 + x) acc) := by
  intro ds
  induction ds with
  | nil =>
    intro acc _
    rfl
  | cons d t ih =>
    intro acc h
    have hd : d < 10 := h d (List.mem_cons_self d t)
    simp only [List.map_cons, parseDigitsAcc,
      decDigitVal_digitChar10 d hd, List.foldl_cons]
    exact ih _ (fun x hx => h x (List.mem_cons_of_mem d hx))

/-- Helper: folding a reversed little-endian digit list gives its value.
-/
lemma foldl_reverse_valLE (l : List ℕ) :
    (l.reverse).foldl (fun a x => a * 10 + x) 0 = valLE l := by
  induction l with
  | nil => rfl
  | cons d t ih =>
    simp only [List.reverse_cons, List.foldl_append, ih, List.foldl_cons,
      List.foldl_nil, valLE, List.foldr_cons]
    simp only [valLE] at ih ⊢
    omega

/-- Helper: parse of a nonempty digit-character list. -/
lemma parseNatDigits_map (ds : List ℕ) (hne : ds ≠ [])
    (hlt : ∀ x ∈ ds, x < 10) :
    parseNatDigits (ds.map digitChar10) =
      some (ds.foldl (fun a x => a * 10 + x) 0) := by
  match ds with
  | [] => exact absurd rfl hne
  | d :: t =>
    show parseDigitsAcc 0 ((d :: t).map digitChar10) = _
    exact parseDigitsAcc_map (d :: t) 0 hlt

/-- Helper: every natStr rendering is a nonempty digit-character list
whose parsed value is the number. -/
lemma natStr_shape (n : ℕ) : ∃ ds : List ℕ, ds ≠ [] ∧
    (∀ x ∈ ds, x < 10) ∧ (natStr n).data = ds.map digitChar10 ∧
    ds.foldl (fun a x => a * 10 + x) 0 = n := by
  by_cases hn : n = 0
  · subst hn
    exact ⟨[0], by simp, by simp, rfl, rfl⟩
  · refine ⟨(natDigits n).reverse, ?_, ?_, ?_, ?_⟩
    · have : natDigits n ≠ [] := by
        match n with
        | m + 1 => simp [natDigits, natDigitsAux]
      simpa using this
    · intro x hx
      exact natDigitsAux_lt n n x (List.mem_reverse.mp hx)
    · simp [natStr, hn]
    · rw [foldl_reverse_valLE]
      exact natDigitsAux_valLE n n (le_refl n)

/-- Helper: padded digits are below 10. -/
lemma leDigitsPadded_lt : ∀ (p m x : ℕ), x ∈ leDigitsPadded m p →
    x < 10 := by
  intro p
  induction p with
  | zero =>
    intro m x hx
    simp [leDigitsPadded] at hx
  | succ p ih =>
    intro m x hx
    simp only [leDigitsPadded, List.mem_cons] at hx
    rcases hx with h | h
    · subst h
      exact Nat.mod_lt _ (by norm_num)
    · exact ih _ _ h

/-- Helper: the padded digit list has the requested width. -/
lemma leDigitsPadded_length : ∀ (p m : ℕ),
    (leDigitsPadded m p).length = p := by
  intro p
  induction p with
  | zero => intro m; rfl
  | succ p ih =>
    intro m
    simp [leDigitsPadded, ih]

/-- Helper: value of the padded digit list. -/
lemma valLE_leDigitsPadded : ∀ (p m : ℕ),
    valLE (leDigitsPadded m p) = m % 10 ^ p := by
  intro p
  induction p with
  | zero =>
    intro m
    simp [leDigitsPadded, valLE, Nat.mod_one]
  | succ p ih =>
    intro m
    have hrec := ih (m / 10)
    simp only [leDigitsPadded, valLE, List.foldr_cons]
    simp only [valLE] at hrec
    rw [hrec, pow_succ, Nat.mul_comm (10 ^ p) 10, Nat.mod_mul]

/-- Helper: the fractional block parses back to the low digits. -/
lemma fracStr_parse (m p : ℕ) (hp : p ≠ 0) :
    parseNatDigits (fracStr m p).data = some (m % 10 ^ p) := by
  have hdata : (fracStr m p).data =
      ((leDigitsPadded m p).reverse).map digitChar10 := rfl
  rw [hdata, parseNatDigits_map]
  · rw [foldl_reverse_valLE, valLE_leDigitsPadded]
  · intro h
    have := leDigitsPadded_length p m
    rw [← List.length_reverse, h] at this
    exact hp this.symm
  · intro x hx
    exact leDigitsPadded_lt p m x (List.mem_reverse.mp hx)

/-- Helper: width of the fractional block. -/
lemma fracStr_length (m p : ℕ) : (fracStr m p).data.length = p := by
  have hdata : (fracStr m p).data =
      ((leDigitsPadded m p).reverse).map digitChar10 := rfl
  simp [hdata, leDigitsPadded_length]

/-- Helper: takeWhile and dropWhile on a block of passing characters
followed by a failing separator. -/
lemma takeWhile_append_sep (q : Char → Bool) (xs : List Char) (y : Char)
    (ys : List Char) (hxs : ∀ x ∈ xs, q x = true) (hy : q y = false) :
    (xs ++ y :: ys).takeWhile q = xs ∧
    (xs ++ y :: ys).dropWhile q = y :: ys := by
  induction xs with
  | nil => simp [List.takeWhile_cons, List.dropWhile_cons, hy]
  | cons a t ih =>
    have ha : q a = true := hxs a (List.mem_cons_self a t)
    have ih2 := ih (fun x hx => hxs x (List.mem_cons_of_mem a hx))
    simp [List.takeWhile_cons, List.dropWhile_cons, ha, ih2.1, ih2.2]

/-- Helper: takeWhile and dropWhile when every character passes. -/
lemma takeWhile_all_pass (q : Char → Bool) (xs : List Char)
    (hxs : ∀ x ∈ xs, q x = true) :
    xs.takeWhile q = xs ∧ xs.dropWhile q = [] := by
  induction xs with
  | nil => simp
  | cons a t ih =>
    have ha : q a = true := hxs a (List.mem_cons_self a t)
    have ih2 := ih (fun x hx => hxs x (List.mem_cons_of_mem a hx))
    simp [List.takeWhile_cons, List.dropWhile_cons, ha, ih2.1, ih2.2]

/-- Helper: rounding a natural number is the identity. -/
lemma rhe_natCast (n : ℕ) : rhe (n : ℚ) = n := by
  simpa using rhe_intCast (n : ℤ)

/-- Helper: rounding preserves nonnegativity. -/
lemma rhe_nonneg (q : ℚ) (hq : 0 ≤ q) : 0 ≤ rhe q := by
  have hf : (0 : ℤ) ≤ ⌊q⌋ := Int.floor_nonneg.mpr hq
  simp only [rhe, ratFloor_eq_floor]
  split_ifs <;> omega

/-- Helper: parsing a rendered integer string recovers the number. -/
lemma decimalParse_natStr (A : ℕ) :
    decimalParse (natStr A) = some (A : ℚ) := by
  obtain ⟨ds, hne, hlt, hdata, hval⟩ := natStr_shape A
  match ds, hne with
  | d :: t, _ =>
    have hd : d < 10 := hlt d (List.mem_cons_self d t)
    have hq : ∀ x ∈ (d :: t).map digitChar10,
        (fun c => decide (c ≠ '.')) x = true := by
      intro x hx
      rcases List.mem_map.mp hx with ⟨dd, hdd, hx'⟩
      subst hx'
      simp [(digitChar10_ne dd (hlt dd hdd)).1]
    have htake := takeWhile_all_pass _ _ hq
    simp only [decimalParse, hdata, List.map_cons]
    rw [if_neg (by simpa using (digitChar10_ne d hd).2)]
    simp only [← List.map_cons]
    rw [htake.1, htake.2]
    rw [parseNatDigits_map (d :: t) (by simp) hlt, hval]
    rfl

/-- Helper: parsing a rendered integer-point-fraction string recovers
the two blocks. -/
lemma decimalParse_render (A B p : ℕ) (hp : p ≠ 0) :
    decimalParse (natStr A ++ "." ++ fracStr B p) =
      some ((A : ℚ) + ((B % 10 ^ p : ℕ) : ℚ) / 10 ^ p) := by
  obtain ⟨ds, hne, hlt, hdata, hval⟩ := natStr_shape A
  have hfull : (natStr A ++ "." ++ fracStr B p).data =
      ds.map digitChar10 ++ '.' :: (fracStr B p).data := by
    rw [data_append, data_append, hdata]
    simp
  match ds, hne with
  | d :: t, _ =>
    have hd : d < 10 := hlt d (List.mem_cons_self d t)
    have hq : ∀ x ∈ (d :: t).map digitChar10,
        (fun c => decide (c ≠ '.')) x = true := by
      intro x hx
      rcases List.mem_map.mp hx with ⟨dd, hdd, hx'⟩
      subst hx'
      simp [(digitChar10_ne dd (hlt dd hdd)).1]
    have htake := takeWhile_append_sep (fun c => decide (c ≠ '.'))
      ((d :: t).map digitChar10) '.' (fracStr B p).data hq (by simp)
    simp only [decimalParse, hfull, List.map_cons, List.cons_append]
    rw [if_neg (by simpa using (digitChar10_ne d hd).2)]
    simp only [← List.map_cons, ← List.cons_append]
    rw [htake.1, htake.2]
    rw [parseNatDigits_map (d :: t) (by simp) hlt, hval]
    simp only [fracStr_parse B p hp, fracStr_length]
    norm_num

/-- Helper: prepending the empty string is the identity. -/
lemma empty_append_str (s : String) : "" ++ s = s := by
  cases s
  rfl

/-- Helper: rendering of a nonnegative value never carries a sign. -/
lemma fmtQ_nonneg (q : ℚ) (hq : 0 ≤ q) (p : ℕ) :
    fmtQ q p =
      if p = 0 then natStr ((rhe (q * 10 ^ p)).natAbs)
      else natStr ((rhe (q * 10 ^ p)).natAbs / 10 ^ p) ++ "." ++
        fracStr ((rhe (q * 10 ^ p)).natAbs % 10 ^ p) p := by
  simp only [fmtQ, if_neg (not_lt.mpr hq)]
  by_cases hp : p = 0 <;> simp [hp, empty_append_str]

/-- C7 (amended): for a nonnegative raw value in smallest units (within
the exact range of the 28-digit Decimal context), the rendered canonical
string parses back to a value whose product with 10 ^ d is an exact
smallest-unit pre-image, and re-rendering that pre-image reproduces the
identical string. -/
theorem amount_roundtrip (registry : String → Option CoinInfo)
    (chain_key : String) (contract : Option String) (d z : ℕ)
    (hd : resolveDecimals registry chain_key contract = some d)
    (hz : z < 10 ^ 28) :
    ∃ (q : ℚ) (m : ℕ),
      decimalParse (to_standard_amount registry (.int (z : ℤ)) chain_key
        contract true) = some q ∧
      q * 10 ^ d = (m : ℚ) ∧
      to_standard_amount registry (.int (m : ℤ)) chain_key contract true =
        to_standard_amount registry (.int (z : ℤ)) chain_key contract
          true := by
  have hcodec : ∀ w : ℕ,
      to_standard_amount registry (.int (w : ℤ)) chain_key contract true =
        fmtQ ((w : ℚ) / 10 ^ d) (min d 8) := by
    intro w
    simp [to_standard_amount, hd]
  have hpd : min d 8 ≤ d := min_le_left d 8
  set p := min d 8 with hpdef
  set qv : ℚ := (z : ℚ) / 10 ^ d with hqv
  have hq0 : 0 ≤ qv := by positivity
  have hR0 : 0 ≤ rhe (qv * 10 ^ p) := rhe_nonneg _ (by positivity)
  set N : ℕ := (rhe (qv * 10 ^ p)).natAbs with hNdef
  have hpow : (10 : ℚ) ^ d = 10 ^ p * 10 ^ (d - p) := by
    rw [← pow_add]
    congr 1
    omega
  have hmq : ((N * 10 ^ (d - p) : ℕ) : ℚ) / 10 ^ d = (N : ℚ) / 10 ^ p := by
    push_cast
    rw [hpow, mul_comm ((10 : ℚ) ^ p) (10 ^ (d - p)),
      mul_comm ((N : ℚ)) ((10 : ℚ) ^ (d - p)), mul_div_mul_left]
    exact pow_ne_zero _ (by norm_num)
  have hX : (rhe ((N : ℚ) / 10 ^ p * 10 ^ p)).natAbs = N := by
    rw [div_mul_cancel₀ _ (pow_ne_zero _ (by norm_num : (10 : ℚ) ≠ 0)),
      rhe_natCast]
    exact Int.natAbs_ofNat N
  refine ⟨(N : ℚ) / 10 ^ p, N * 10 ^ (d - p), ?_, ?_, ?_⟩
  · rw [hcodec z, fmtQ_nonneg qv hq0 p, ← hNdef]
    by_cases hp : p = 0
    · rw [if_pos hp, decimalParse_natStr, hp]
      norm_num
    · rw [if_neg hp, decimalParse_render _ _ _ hp,
        Nat.mod_mod_of_dvd _ (dvd_refl _)]
      congr 1
      have hAB : N / 10 ^ p * 10 ^ p + N % 10 ^ p = N := by
        rw [Nat.mul_comm]
        exact Nat.div_add_mod N (10 ^ p)
      have hABQ : ((N / 10 ^ p : ℕ) : ℚ) * 10 ^ p +
          ((N % 10 ^ p : ℕ) : ℚ) = (N : ℚ) := by
        exact_mod_cast hAB
      have hne : ((10 : ℚ) ^ p) ≠ 0 :=
        pow_ne_zero _ (by norm_num : (10 : ℚ) ≠ 0)
      field_simp
      linarith [hABQ]
  · rw [hpow]
    push_cast
    field_simp
    ring
  · rw [hcodec (N * 10 ^ (d - p)), hcodec z, hmq,
      fmtQ_nonneg _ (by positivity) p, fmtQ_nonneg qv hq0 p, hX, ← hNdef]

/-- C7 witness: the USDT rendering of 5500000 micro-units round-trips.
-/
theorem amount_roundtrip_witness :
    ∃ (q : ℚ) (m : ℕ),
      decimalParse (to_standard_amount (fun _ => none)
        (.int ((5500000 : ℕ) : ℤ)) "ethereum"
        (some "0xdAC17F958D2ee523a2206206994597C13D831ec7") true)
        = some q ∧
      q * 10 ^ 6 = (m : ℚ) ∧
      to_standard_amount (fun _ => none) (.int (m : ℤ)) "ethereum"
          (some "0xdAC17F958D2ee523a2206206994597C13D831ec7") true =
        to_standard_amount (fun _ => none) (.int ((5500000 : ℕ) : ℤ))
          "ethereum" (some "0xdAC17F958D2ee523a2206206994597C13D831ec7")
          true :=
  amount_roundtrip (fun _ => none) "ethereum"
    (some "0xdAC17F958D2ee523a2206206994597C13D831ec7") 6 5500000
    (by with_unfolding_all decide) (by norm_num)

/-- C7 counterexample: a negative raw value of one smallest unit on an
18-decimal token renders as the signed zero string, whose smallest-unit
pre-image is 0, and re-rendering 0 drops the sign: the round trip does
not reproduce the identical string. -/
theorem amount_roundtrip_counterexample :
    to_standard_amount (fun _ => none) (.int (-1)) "arbitrum"
        (some "0x912CE59144191C1204E64559FE8253a0e49E6548") true
      = "-0.00000000" ∧
    decimalParse "-0.00000000" = some 0 ∧
    (0 : ℚ) * 10 ^ 18 = ((0 : ℕ) : ℚ) ∧
    to_standard_amount (fun _ => none) (.int ((0 : ℕ) : ℤ)) "arbitrum"
        (some "0x912CE59144191C1204E64559FE8253a0e49E6548") true
      = "0.00000000" ∧
    ("0.00000000" : String) ≠ "-0.00000000" := by
  refine ⟨by with_unfolding_all decide, by with_unfolding_all decide,
    by norm_num, by with_unfolding_all decide, by decide⟩

/-! ### Bit-repacking machinery for the CashAddr encoder -/

/-- Helper: folding big-endian groups from an arbitrary accumulator. -/
lemma beVal_foldl (b : ℕ) : ∀ (l : List ℕ) (a : ℕ),
    List.foldl (fun x d => x * 2 ^ b + d) a l =
      a * (2 ^ b) ^ l.length + beVal b l := by
  intro l
  induction l with
  | nil =>
    intro a
    simp [beVal]
  | cons d t ih =>
    intro a
    rw [List.foldl_cons, ih (a * 2 ^ b + d)]
    have h2 : beVal b (d :: t) = d * (2 ^ b) ^ t.length + beVal b t := by
      show List.foldl _ (0 * 2 ^ b + d) t = _
      rw [Nat.zero_mul, Nat.zero_add, ih d]
    rw [List.length_cons, h2, pow_succ]
    ring

/-- Helper: big-endian value of a cons. -/
lemma beVal_cons (b d : ℕ) (t : List ℕ) :
    beVal b (d :: t) = d * (2 ^ b) ^ t.length + beVal b t := by
  show List.foldl (fun x e => x * 2 ^ b + e) (0 * 2 ^ b + d) t = _
  rw [Nat.zero_mul, Nat.zero_add, beVal_foldl]

/-- Helper: big-endian value of an append. -/
lemma beVal_append (b : ℕ) (l1 l2 : List ℕ) :
    beVal b (l1 ++ l2) = beVal b l1 * (2 ^ b) ^ l2.length + beVal b l2 := by
  show List.foldl _ _ (l1 ++ l2) = _
  rw [List.foldl_append]
  exact beVal_foldl b l2 _

/-- Helper: full correctness of the inner emit loop at the 8-to-5
instantiation: it emits bits / 5 in-range groups carrying the high bits
of the pending accumulator and leaves bits % 5 pending. -/
lemma emitLoop_spec : ∀ (fuel bits acc : ℕ), bits ≤ fuel →
    (emitLoop 5 31 acc fuel bits).2 = bits % 5 ∧
    (emitLoop 5 31 acc fuel bits).1.length = bits / 5 ∧
    (∀ x ∈ (emitLoop 5 31 acc fuel bits).1, x < 32) ∧
    beVal 5 (emitLoop 5 31 acc fuel bits).1 * 2 ^ (bits % 5) +
      acc % 2 ^ (bits % 5) = acc % 2 ^ bits := by
  intro fuel
  induction fuel with
  | zero =>
    intro bits acc h
    have hb : bits = 0 := by omega
    subst hb
    simp [emitLoop, beVal]
  | succ fuel ih =>
    intro bits acc h
    by_cases hb : 5 ≤ bits
    · have hcond : 0 < 5 ∧ 5 ≤ bits := ⟨by norm_num, hb⟩
      simp only [emitLoop, if_pos hcond]
      obtain ⟨hsnd, hlen, hlt, hval⟩ := ih (bits - 5) acc (by omega)
      have hmod : (bits - 5) % 5 = bits % 5 := by omega
      have he : (acc >>> (bits - 5)) &&& 31 = acc / 2 ^ (bits - 5) % 32 := by
        rw [Nat.shiftRight_eq_div_pow,
          show (31 : ℕ) = 2 ^ 5 - 1 from rfl,
          Nat.and_pow_two_sub_one_eq_mod]
      refine ⟨by rw [hsnd, hmod], ?_, ?_, ?_⟩
      · simp only [List.length_cons, hlen]
        omega
      · intro x hx
        rcases List.mem_cons.mp hx with hx | hx
        · subst hx
          calc (acc >>> (bits - 5)) &&& 31 ≤ 31 := Nat.and_le_right
            _ < 32 := by norm_num
        · exact hlt x hx
      · have hsplit : (2 ^ 5 : ℕ) ^ ((bits - 5) / 5) * 2 ^ (bits % 5) =
            2 ^ (bits - 5) := by
          rw [← pow_mul, ← pow_add]
          congr 1
          have := Nat.div_add_mod (bits - 5) 5
          omega
        have hfin : acc % 2 ^ bits =
            acc % 2 ^ (bits - 5) +
              2 ^ (bits - 5) * (acc / 2 ^ (bits - 5) % 2 ^ 5) := by
          rw [← Nat.mod_mul, ← pow_add]
          congr 2
          omega
        have hval2 : beVal 5 (emitLoop 5 31 acc fuel (bits - 5)).1 *
            2 ^ (bits % 5) + acc % 2 ^ (bits % 5) =
            acc % 2 ^ (bits - 5) := by
          rw [← hmod]
          exact hval
        rw [beVal_cons, hlen, add_mul, mul_assoc, hsplit]
        calc (acc >>> (bits - 5) &&& 31) * 2 ^ (bits - 5) +
              beVal 5 (emitLoop 5 31 acc fuel (bits - 5)).1 *
                2 ^ (bits % 5) + acc % 2 ^ (bits % 5)
            = (acc >>> (bits - 5) &&& 31) * 2 ^ (bits - 5) +
              (beVal 5 (emitLoop 5 31 acc fuel (bits - 5)).1 *
                2 ^ (bits % 5) + acc % 2 ^ (bits % 5)) := by ring
          _ = (acc >>> (bits - 5) &&& 31) * 2 ^ (bits - 5) +
              acc % 2 ^ (bits - 5) := by rw [hval2]
          _ = acc % 2 ^ bits := by rw [he, hfin]; ring
    · have hcond : ¬(0 < 5 ∧ 5 ≤ bits) := by omega
      simp only [emitLoop, if_neg hcond]
      have hm : bits % 5 = bits := Nat.mod_eq_of_lt (by omega)
      have hd : bits / 5 = 0 := Nat.div_eq_of_lt (by omega)
      refine ⟨hm.symm ▸ rfl, by simp [hd], by simp, ?_⟩
      rw [hm]
      simp [beVal]

/-- Helper: invariant of the byte fold of convertbits at the 8-to-5
instantiation, over an arbitrary starting state. -/
lemma convert_fold_spec (data : List ℕ) (hdata : ∀ v ∈ data, v < 256) :
    ∀ (ret : List ℕ) (acc bits : ℕ), bits < 5 → (∀ x ∈ ret, x < 32) →
    ((data.foldl (fun (st : List ℕ × ℕ × ℕ) value =>
        (st.1 ++ (emitLoop 5 31 ((st.2.1 <<< 8) ||| value) (st.2.2 + 8)
          (st.2.2 + 8)).1, (st.2.1 <<< 8) ||| value,
          (emitLoop 5 31 ((st.2.1 <<< 8) ||| value) (st.2.2 + 8)
            (st.2.2 + 8)).2)) (ret, acc, bits)).2.2 < 5) ∧
    (∀ x ∈ (data.foldl (fun (st : List ℕ × ℕ × ℕ) value =>
        (st.1 ++ (emitLoop 5 31 ((st.2.1 <<< 8) ||| value) (st.2.2 + 8)
          (st.2.2 + 8)).1, (st.2.1 <<< 8) ||| value,
          (emitLoop 5 31 ((st.2.1 <<< 8) ||| value) (st.2.2 + 8)
            (st.2.2 + 8)).2)) (ret, acc, bits)).1, x < 32) ∧
    ((data.foldl (fun (st : List ℕ × ℕ × ℕ) value =>
        (st.1 ++ (emitLoop 5 31 ((st.2.1 <<< 8) ||| value) (st.2.2 + 8)
          (st.2.2 + 8)).1, (st.2.1 <<< 8) ||| value,
          (emitLoop 5 31 ((st.2.1 <<< 8) ||| value) (st.2.2 + 8)
            (st.2.2 + 8)).2)) (ret, acc, bits)).1.length * 5 +
      (data.foldl (fun (st : List ℕ × ℕ × ℕ) value =>
        (st.1 ++ (emitLoop 5 31 ((st.2.1 <<< 8) ||| value) (st.2.2 + 8)
          (st.2.2 + 8)).1, (st.2.1 <<< 8) ||| value,
          (emitLoop 5 31 ((st.2.1 <<< 8) ||| value) (st.2.2 + 8)
            (st.2.2 + 8)).2)) (ret, acc, bits)).2.2 =
      ret.length * 5 + bits + 8 * data.length) ∧
    (beVal 5 (data.foldl (fun (st : List ℕ × ℕ × ℕ) value =>
        (st.1 ++ (emitLoop 5 31 ((st.2.1 <<< 8) ||| value) (st.2.2 + 8)
          (st.2.2 + 8)).1, (st.2.1 <<< 8) ||| value,
          (emitLoop 5 31 ((st.2.1 <<< 8) ||| value) (st.2.2 + 8)
            (st.2.2 + 8)).2)) (ret, acc, bits)).1 *
        2 ^ (data.foldl (fun (st : List ℕ × ℕ × ℕ) value =>
        (st.1 ++ (emitLoop 5 31 ((st.2.1 <<< 8) ||| value) (st.2.2 + 8)
          (st.2.2 + 8)).1, (st.2.1 <<< 8) ||| value,
          (emitLoop 5 31 ((st.2.1 <<< 8) ||| value) (st.2.2 + 8)
            (st.2.2 + 8)).2)) (ret, acc, bits)).2.2 +
        (data.foldl (fun (st : List ℕ × ℕ × ℕ) value =>
        (st.1 ++ (emitLoop 5 31 ((st.2.1 <<< 8) ||| value) (st.2.2 + 8)
          (st.2.2 + 8)).1, (st.2.1 <<< 8) ||| value,
          (emitLoop 5 31 ((st.2.1 <<< 8) ||| value) (st.2.2 + 8)
            (st.2.2 + 8)).2)) (ret, acc, bits)).2.1 %
        2 ^ (data.foldl (fun (st : List ℕ × ℕ × ℕ) value =>
        (st.1 ++ (emitLoop 5 31 ((st.2.1 <<< 8) ||| value) (st.2.2 + 8)
          (st.2.2 + 8)).1, (st.2.1 <<< 8) ||| value,
          (emitLoop 5 31 ((st.2.1 <<< 8) ||| value) (st.2.2 + 8)
            (st.2.2 + 8)).2)) (ret, acc, bits)).2.2 =
      (beVal 5 ret * 2 ^ bits + acc % 2 ^ bits) * 2 ^ (8 * data.length) +
        beVal 8 data) := by
  induction data with
  | nil =>
    intro ret acc bits hbits hret
    refine ⟨hbits, hret, by simp, ?_⟩
    simp [beVal]
  | cons v rest ih =>
    intro ret acc bits hbits hret
    have hv : v < 256 := hdata v (List.mem_cons_self v rest)
    have hrest : ∀ w ∈ rest, w < 256 :=
      fun w hw => hdata w (List.mem_cons_of_mem v hw)
    simp only [List.foldl_cons]
    obtain ⟨he2, helen, helt, heval⟩ :=
      emitLoop_spec (bits + 8) (bits + 8) ((acc <<< 8) ||| v) (le_refl _)
    have hacc' : (acc <<< 8) ||| v = acc * 2 ^ 8 + v := by
      rw [Nat.shiftLeft_eq, Nat.mul_comm]
      exact (Nat.mul_add_lt_is_or hv acc).symm
    have hstep := ih hrest
      (ret ++ (emitLoop 5 31 ((acc <<< 8) ||| v) (bits + 8) (bits + 8)).1)
      ((acc <<< 8) ||| v)
      (emitLoop 5 31 ((acc <<< 8) ||| v) (bits + 8) (bits + 8)).2
      (by rw [he2]; omega)
      (by
        intro x hx
        rcases List.mem_append.mp hx with hx | hx
        · exact hret x hx
        · exact helt x hx)
    refine ⟨hstep.1, hstep.2.1, ?_, ?_⟩
    · rw [hstep.2.2.1]
      simp only [List.length_append, List.length_cons, helen, he2]
      omega
    · rw [hstep.2.2.2]
      have hT : beVal 5 (ret ++
            (emitLoop 5 31 ((acc <<< 8) ||| v) (bits + 8) (bits + 8)).1) *
            2 ^ (emitLoop 5 31 ((acc <<< 8) ||| v) (bits + 8)
              (bits + 8)).2 +
            ((acc <<< 8) ||| v) %
            2 ^ (emitLoop 5 31 ((acc <<< 8) ||| v) (bits + 8)
              (bits + 8)).2 =
          (beVal 5 ret * 2 ^ bits + acc % 2 ^ bits) * 2 ^ 8 + v := by
        rw [beVal_append, he2, helen]
        have hsplit : ((2 ^ 5 : ℕ)) ^ ((bits + 8) / 5) *
            2 ^ ((bits + 8) % 5) = 2 ^ (bits + 8) := by
          rw [← pow_mul, ← pow_add]
          congr 1
          have := Nat.div_add_mod (bits + 8) 5
          omega
        rw [add_mul, mul_assoc, hsplit, add_assoc, heval]
        have hmod : ((acc <<< 8) ||| v) % 2 ^ (bits + 8) =
            v + 2 ^ 8 * (acc % 2 ^ bits) := by
          rw [hacc', pow_add, Nat.mul_comm (2 ^ bits) (2 ^ 8),
            Nat.mod_mul]
          have hv8 : v < 2 ^ 8 := lt_of_lt_of_le hv (by norm_num)
          have h1 : (acc * 2 ^ 8 + v) % 2 ^ 8 = v := by
            rw [Nat.mul_comm, Nat.mul_add_mod]
            exact Nat.mod_eq_of_lt hv8
          have h2 : (acc * 2 ^ 8 + v) / 2 ^ 8 = acc := by
            rw [Nat.mul_comm acc (2 ^ 8),
              Nat.mul_add_div (by positivity : (0 : ℕ) < 2 ^ 8),
              Nat.div_eq_of_lt hv8, Nat.add_zero]
          rw [h1, h2]
        rw [hmod]
        ring
      rw [hT, beVal_cons]
      simp only [List.length_cons]
      have hp1 : ((2 : ℕ) ^ 8) ^ rest.length = 2 ^ (8 * rest.length) := by
        rw [← pow_mul]
      have hp2 : (2 : ℕ) ^ (8 * (rest.length + 1)) =
          2 ^ (8 * rest.length) * 2 ^ 8 := by
        have h8 : 8 * (rest.length + 1) = 8 * rest.length + 8 := by ring
        rw [h8, pow_add]
      rw [hp1, hp2]
      ring

/-- Helper: full characterization of the 8-to-5 repacking with padding:
all groups are in range, the count is the bit count rounded up to 5-bit
groups, and the big-endian value is the byte value shifted by the pad. -/
lemma convertbits_8_5_spec (data : List ℕ) (hdata : ∀ v ∈ data, v < 256) :
    (∀ x ∈ convertbits data 8 5 true, x < 32) ∧
    (convertbits data 8 5 true).length = (8 * data.length + 4) / 5 ∧
    beVal 5 (convertbits data 8 5 true) =
      beVal 8 data * 2 ^ ((5 - 8 * data.length % 5) % 5) := by
  obtain ⟨h5, hbound, hlen, hval⟩ :=
    convert_fold_spec data hdata [] 0 0 (by norm_num) (by simp)
  set F := List.foldl (fun (st : List ℕ × ℕ × ℕ) value =>
    (st.1 ++ (emitLoop 5 31 ((st.2.1 <<< 8) ||| value) (st.2.2 + 8)
      (st.2.2 + 8)).1, (st.2.1 <<< 8) ||| value,
      (emitLoop 5 31 ((st.2.1 <<< 8) ||| value) (st.2.2 + 8)
        (st.2.2 + 8)).2)) ([], 0, 0) data with hF
  simp only [List.length_nil, Nat.zero_mul, Nat.zero_add] at hlen
  have hval2 : beVal 5 F.1 * 2 ^ F.2.2 + F.2.1 % 2 ^ F.2.2 =
      beVal 8 data := by
    have hinit : (beVal 5 [] * 2 ^ 0 + 0 % 2 ^ 0) = 0 := by simp [beVal]
    rw [hval, hinit, Nat.zero_mul, Nat.zero_add]
  have hconv : convertbits data 8 5 true =
      if F.2.2 ≠ 0 then F.1 ++ [(F.2.1 <<< (5 - F.2.2)) &&& 31]
      else F.1 := by
    simp only [convertbits, show ((1 : ℕ) <<< 5) - 1 = 31 from rfl, ← hF,
      if_true]
  by_cases hz : F.2.2 = 0
  · rw [hconv, if_neg (by simp [hz])]
    refine ⟨hbound, by omega, ?_⟩
    have hm : 8 * data.length % 5 = 0 := by omega
    rw [hm]
    simp only [Nat.sub_zero, Nat.mod_self, pow_zero, Nat.mul_one]
    have := hval2
    rw [hz] at this
    simpa [Nat.mod_one] using this
  · rw [hconv, if_pos hz]
    have hb5 : F.2.2 < 5 := h5
    have hpadval : (F.2.1 <<< (5 - F.2.2)) &&& 31 =
        (F.2.1 % 2 ^ F.2.2) * 2 ^ (5 - F.2.2) := by
      rw [Nat.shiftLeft_eq, show (31 : ℕ) = 2 ^ 5 - 1 from rfl,
        Nat.and_pow_two_sub_one_eq_mod]
      have hsp : (2 : ℕ) ^ 5 = 2 ^ F.2.2 * 2 ^ (5 - F.2.2) := by
        rw [← pow_add]
        congr 1
        omega
      rw [hsp, Nat.mul_mod_mul_right]
    refine ⟨?_, ?_, ?_⟩
    · intro x hx
      rcases List.mem_append.mp hx with hx | hx
      · exact hbound x hx
      · rw [List.mem_singleton] at hx
        subst hx
        calc (F.2.1 <<< (5 - F.2.2)) &&& 31 ≤ 31 := Nat.and_le_right
          _ < 32 := by norm_num
    · simp only [List.length_append, List.length_cons, List.length_nil]
      omega
    · rw [beVal_append, hpadval]
      have hone : beVal 5 [(F.2.1 % 2 ^ F.2.2) * 2 ^ (5 - F.2.2)] =
          (F.2.1 % 2 ^ F.2.2) * 2 ^ (5 - F.2.2) := by
        simp [beVal]
      rw [hone]
      have hm : 8 * data.length % 5 = F.2.2 := by omega
      have hexp : (5 - F.2.2) % 5 = 5 - F.2.2 := by omega
      rw [hm, hexp]
      have h32 : ((2 : ℕ) ^ 5) ^ (1 : ℕ) = 2 ^ F.2.2 * 2 ^ (5 - F.2.2) := by
        rw [pow_one, ← pow_add]
        congr 1
        omega
      simp only [List.length_cons, List.length_nil]
      rw [h32, ← hval2]
      ring

/-- Helper: the eight 5-bit slices of the checksum, most significant
first, carry exactly its low 40 bits. -/
lemma range_groups_beVal (c : ℕ) : ∀ k : ℕ,
    beVal 5 (((List.range k).reverse).map
      (fun i => (c >>> (5 * i)) &&& 31)) = c % 2 ^ (5 * k) := by
  intro k
  induction k with
  | zero => simp [beVal, Nat.mod_one]
  | succ k ih =>
    rw [List.range_succ, List.reverse_append]
    simp only [List.reverse_cons, List.reverse_nil, List.nil_append,
      List.singleton_append, List.map_cons]
    rw [beVal_cons]
    have hmaplen : (((List.range k).reverse).map
        (fun i => (c >>> (5 * i)) &&& 31)).length = k := by simp
    rw [hmaplen, ih]
    have hg : (c >>> (5 * k)) &&& 31 = c / 2 ^ (5 * k) % 2 ^ 5 := by
      rw [Nat.shiftRight_eq_div_pow, show (31 : ℕ) = 2 ^ 5 - 1 from rfl,
        Nat.and_pow_two_sub_one_eq_mod]
    have hsucc : (2 : ℕ) ^ (5 * (k + 1)) = 2 ^ (5 * k) * 2 ^ 5 := by
      have h5k : 5 * (k + 1) = 5 * k + 5 := by ring
      rw [h5k, pow_add]
    have hpw : ((2 : ℕ) ^ 5) ^ k = 2 ^ (5 * k) := by
      rw [← pow_mul]
    rw [hg, hsucc, Nat.mod_mul, hpw]
    ring

/-- C8: the BCH address encoder, downstream of the externally computed
SHA-256 and RIPEMD-160 digest, prepends version byte 0, repacks the 21
payload bytes bit-exactly into 34 in-range 5-bit groups (the byte value
shifted by the two pad bits), computes the polymod checksum over the
prefix expansion, the payload groups and eight zero groups, splits it
into its eight 5-bit slices, and returns bitcoincash: followed by the
charset encoding of the payload and checksum groups. -/
theorem bch_cashaddr_encoding (h160 : List ℕ) (hlen : h160.length = 20)
    (hbytes : ∀ b ∈ h160, b < 256) :
    pubkey_to_address_with_bch h160 =
      "bitcoincash:" ++ String.mk
        ((convertbits (0 :: h160) 8 5 true ++
          ((List.range 8).reverse).map (fun i =>
            (polymod (bchPrefixData ++ convertbits (0 :: h160) 8 5 true ++
              List.replicate 8 0) >>> (5 * i)) &&& 31)).map
          (fun d => CHARSET.data.getD d 'q')) ∧
    (convertbits (0 :: h160) 8 5 true).length = 34 ∧
    (∀ x ∈ convertbits (0 :: h160) 8 5 true, x < 32) ∧
    beVal 5 (convertbits (0 :: h160) 8 5 true) = 4 * beVal 8 (0 :: h160) ∧
    (((List.range 8).reverse).map (fun i =>
      (polymod (bchPrefixData ++ convertbits (0 :: h160) 8 5 true ++
        List.replicate 8 0) >>> (5 * i)) &&& 31)).length = 8 ∧
    (∀ x ∈ ((List.range 8).reverse).map (fun i =>
      (polymod (bchPrefixData ++ convertbits (0 :: h160) 8 5 true ++
        List.replicate 8 0) >>> (5 * i)) &&& 31), x < 32) ∧
    beVal 5 (((List.range 8).reverse).map (fun i =>
      (polymod (bchPrefixData ++ convertbits (0 :: h160) 8 5 true ++
        List.replicate 8 0) >>> (5 * i)) &&& 31)) =
      polymod (bchPrefixData ++ convertbits (0 :: h160) 8 5 true ++
        List.replicate 8 0) % 2 ^ 40 := by
  have hpayload : ∀ v ∈ (0 :: h160), v < 256 := by
    intro v hv
    rcases List.mem_cons.mp hv with h | h
    · subst h
      norm_num
    · exact hbytes v h
  obtain ⟨hb, hl, hv⟩ := convertbits_8_5_spec (0 :: h160) hpayload
  have hlen21 : (0 :: h160).length = 21 := by simp [hlen]
  refine ⟨by simp only [pubkey_to_address_with_bch], ?_, hb, ?_,
    by simp, ?_, ?_⟩
  · rw [hl, hlen21]
  · rw [hv, hlen21]
    norm_num
    ring
  · intro x hx
    rcases List.mem_map.mp hx with ⟨i, _, hx'⟩
    subst hx'
    calc (polymod (bchPrefixData ++ convertbits (0 :: h160) 8 5 true ++
          List.replicate 8 0) >>> (5 * i)) &&& 31 ≤ 31 := Nat.and_le_right
      _ < 32 := by norm_num
  · have h := range_groups_beVal (polymod (bchPrefixData ++
      convertbits (0 :: h160) 8 5 true ++ List.replicate 8 0)) 8
    rw [show (5 * 8 : ℕ) = 40 from rfl] at h
    exact h

set_option maxRecDepth 8000 in
/-- C8 witness: on the standard test-vector hash160 the payload repacks
to 34 groups and the full encoder reproduces the published CashAddr
string (checksum included, bit-exact). -/
theorem bch_cashaddr_encoding_witness :
    (convertbits (0 :: bchTestHash) 8 5 true).length = 34 ∧
    pubkey_to_address_with_bch bchTestHash =
      "bitcoincash:qpm2qsznhks23z7629mms6s4cwef74vcwvy22gdx6a" :=
  ⟨(bch_cashaddr_encoding bchTestHash (by decide) (by decide)).2.1,
    by decide⟩

end Airlock
